import Mathlib

/-!
Verification development for the RouteEngine of the atc-frontend repository
(3D A* corridor path planner: path search, line-of-sight smoothing, waypoint
phase annotation, and oracle-based segment validation).

The JavaScript source is shallowly embedded here.  Modelling conventions:

* JavaScript numbers are modelled by exact rationals.  The one place where
  the IEEE value NaN matters behaviourally is the altitude arithmetic fed by
  a possibly absent field `obstacleHeight` (in JS, `Math.max(undefined, x)`
  is NaN and every comparison with NaN is false).  Quantities that can be
  NaN are modelled as `Option Rat` with `none` playing the role of NaN; the
  lifted operations below (`jsMax`, `jsAdd`, `jsGt`, `jsLt`) implement the
  JS semantics of `Math.max`, `+`, `>`, `<` on such values.
* `x || 0` on a present number field is the identity except at 0, where it
  is again 0, so it is modelled by `Option.getD 0`.
* `gScore[id] || Infinity` treats both a missing entry and a stored 0 as
  Infinity (0 is falsy in JS); `relaxGuard` models this exactly.
* The haversine distance `calculateDistance` is transcendental; the model
  takes the distance function as an explicit parameter `dist`.  Every
  theorem below is proved for an arbitrary distance function, and concrete
  witnesses instantiate it with a concrete computable function.
* `openSet.sort((a, b) => a.fScore - b.fScore)` followed by `shift()` is a
  stable sort (guaranteed by the ECMAScript specification) keyed on the
  f-score.  A stable sorted permutation of a list under a total preorder is
  unique, so the structural insertion sort `sortByF` below computes exactly
  the JS result.
* The open-set loop and the smoothing loop are given explicit fuel.  The
  fuel chosen (`numLanes * numSteps + 1` pops, resp. the path length) is an
  upper bound on the number of iterations the JS loops can perform, because
  every A* iteration pops and closes one of the at most
  `numLanes * numSteps` node ids (closed ids are never re-inserted), and
  every smoothing iteration strictly advances the anchor index.
-/

namespace RouteEngine

/-- JS `Math.max` on two plain numbers (kernel-reducible form of `max`). -/
def rmax (a b : ℚ) : ℚ := if a ≤ b then b else a

/-- JS `Math.max` on possibly-NaN values (`none` = NaN): NaN propagates. -/
def jsMax : Option ℚ → Option ℚ → Option ℚ
  | some a, some b => some (rmax a b)
  | _, _ => none

/-- JS `+` on possibly-NaN values: NaN propagates. -/
def jsAdd : Option ℚ → Option ℚ → Option ℚ
  | some a, some b => some (a + b)
  | _, _ => none

/-- JS `-` on possibly-NaN values: NaN propagates. -/
def jsSub : Option ℚ → Option ℚ → Option ℚ
  | some a, some b => some (a - b)
  | _, _ => none

/-- JS `>` on possibly-NaN values: any comparison with NaN is false. -/
def jsGt : Option ℚ → Option ℚ → Bool
  | some a, some b => a > b
  | _, _ => false

/-- JS `<` on possibly-NaN values: any comparison with NaN is false. -/
def jsLt : Option ℚ → Option ℚ → Bool
  | some a, some b => a < b
  | _, _ => false

/-- JS `Math.round`: round half toward positive infinity. -/
def jround (x : ℚ) : ℤ := ⌊x + 1/2⌋

/-- A sampled ground point of the corridor grid.  `obstacleHeight` may be
absent (JS `undefined`). -/
structure GridPoint where
  lat : ℚ
  lon : ℚ
  terrainHeight : ℚ
  obstacleHeight : Option ℚ
deriving DecidableEq, Repr

/-- The corridor grid: lanes of equal length plus optional user waypoint
step indices. -/
structure Grid where
  lanes : List (List GridPoint)
  waypointIndices : Option (List Nat)
deriving DecidableEq, Repr

/-- The engine tunables read by `optimizeFlightPath` (`ENGINE_CONFIG`). -/
structure Config where
  FAA_LIMIT_AGL : ℚ
  SAFETY_BUFFER_M : ℚ
  CRUISE_SPEED_MPS : ℚ
  COST_CLIMB_PENALTY : ℚ
  COST_LANE_CHANGE : ℚ
  COST_PROXIMITY_PENALTY : ℚ
deriving DecidableEq, Repr

/-- The default `ENGINE_CONFIG` values of the source. -/
def defaultConfig : Config :=
  { FAA_LIMIT_AGL := 121
    SAFETY_BUFFER_M := 15
    CRUISE_SPEED_MPS := 15
    COST_CLIMB_PENALTY := 15
    COST_LANE_CHANGE := 50
    COST_PROXIMITY_PENALTY := 100 }

/-- An A* search node.  The id `(step, lane)` of the JS code is kept as the
pair of the `step` and `lane` fields.  `alt` can be NaN (see module header),
hence `Option ℚ`. -/
structure Node where
  step : Nat
  lane : Nat
  gScore : ℚ
  fScore : ℚ
  alt : Option ℚ
deriving DecidableEq, Repr

/-- The node id `step_lane` used as key of the score and predecessor maps. -/
def nodeId (n : Node) : Nat × Nat := (n.step, n.lane)

/-- Waypoint phases emitted by the annotator and the segment validator. -/
inductive Phase where
  | GROUND_START
  | GROUND_WAYPOINT
  | GROUND_END
  | VERTICAL_ASCENT
  | VERTICAL_DESCENT
  | CRUISE
  | CRUISE_CORNER
  | CRUISE_INTERMEDIATE
  | CRUISE_DETOUR
deriving DecidableEq, Repr

/-- A flight waypoint.  `obstacleHeight` is only set on detour waypoints
synthesized by the segment validator (other waypoint objects in the JS code
simply lack the field). -/
structure Waypoint where
  lat : ℚ
  lon : ℚ
  alt : Option ℚ
  phase : Phase
  prio : Nat
  obstacleHeight : Option ℚ := none
deriving DecidableEq, Repr

/-- Grid access `grid.lanes[lane][step]`.  The defaults are never reached on
the index ranges used by the engine on well-formed grids. -/
def gridPointAt (grid : Grid) (lane step : Nat) : GridPoint :=
  ((grid.lanes.getD lane []).getD step ⟨0, 0, 0, none⟩)

/-- Placeholder node for list accesses; never reached on the index ranges
used by the engine. -/
def dummyNode : Node := ⟨0, 0, 0, 0, none⟩

/-- The minimum safe altitude used by the line-of-sight test (source line
53): `Math.max(gridPoint.obstacleHeight || 0, gridPoint.terrainHeight || 0)
+ SAFETY_BUFFER_M`.  Here the absent obstacle height is defaulted to 0 by
the `|| 0`. -/
def groundMinSafe (cfg : Config) (p : GridPoint) : ℚ :=
  rmax (p.obstacleHeight.getD 0) p.terrainHeight + cfg.SAFETY_BUFFER_M

/-- `maxAlt` of `isLineOfSightClear`: the maximum of the two endpoint
altitudes and of the altitude of every raw node between `startIdx` and
`endIdx` inclusive. -/
def losMaxAlt (start en : Node) (allNodes : List Node) (startIdx endIdx : Nat) :
    Option ℚ :=
  (List.range' startIdx (endIdx + 1 - startIdx)).foldl
    (fun acc i => jsMax acc ((allNodes.getD i dummyNode).alt))
    (jsMax start.alt en.alt)

/-- `numSamples = Math.max(5, (endIdx - startIdx) * 2)`. -/
def losNumSamples (startIdx endIdx : Nat) : Nat :=
  max 5 ((endIdx - startIdx) * 2)

/-- The loop counter values of the sampling loop of `isLineOfSightClear`:
`for (let i = 1; i < numSamples; i += 1)`. -/
def losSampleParams (startIdx endIdx : Nat) : List Nat :=
  List.range' 1 (losNumSamples startIdx endIdx - 1)

/-- One iteration body of the sampling loop of `isLineOfSightClear`:
round the interpolated position to the nearest step and lane, then demand
in-bounds, clearance at the sample, and clearance at both in-bounds
adjacent lanes. -/
def losSamplePass (cfg : Config) (grid : Grid) (numLanes numSteps : Nat)
    (maxAlt : Option ℚ) (start en : Node) (numSamples i : Nat) : Bool :=
  let t : ℚ := (i : ℚ) / (numSamples : ℚ)
  let midStep : ℤ := jround ((start.step : ℚ) + t * ((en.step : ℚ) - (start.step : ℚ)))
  let midLane : ℤ := jround ((start.lane : ℚ) + t * ((en.lane : ℚ) - (start.lane : ℚ)))
  if midLane < 0 ∨ (numLanes : ℤ) ≤ midLane then false
  else if midStep < 0 ∨ (numSteps : ℤ) ≤ midStep then false
  else if jsGt (some (groundMinSafe cfg (gridPointAt grid midLane.toNat midStep.toNat))) maxAlt then false
  else if 0 < midLane ∧
      jsGt (some (groundMinSafe cfg (gridPointAt grid (midLane.toNat - 1) midStep.toNat))) maxAlt then false
  else if midLane < (numLanes : ℤ) - 1 ∧
      jsGt (some (groundMinSafe cfg (gridPointAt grid (midLane.toNat + 1) midStep.toNat))) maxAlt then false
  else true

/-- `isLineOfSightClear(start, end, allNodes, startIdx, endIdx, grid)`:
clear iff every evaluated sample passes all checks. -/
def isLineOfSightClear (cfg : Config) (grid : Grid) (start en : Node)
    (allNodes : List Node) (startIdx endIdx : Nat) : Bool :=
  let maxAlt := losMaxAlt start en allNodes startIdx endIdx
  let numLanes := grid.lanes.length
  let numSteps := (grid.lanes.getD 0 []).length
  let numSamples := losNumSamples startIdx endIdx
  (losSampleParams startIdx endIdx).all
    (fun i => losSamplePass cfg grid numLanes numSteps maxAlt start en numSamples i)

/-- The inner scan of `smoothPath`: the furthest target index whose
line-of-sight from `currentIdx` is clear (default `currentIdx + 1`). -/
def furthestValid (cfg : Config) (grid : Grid) (pathNodes : List Node)
    (currentIdx : Nat) : Nat :=
  (List.range' (currentIdx + 2) (pathNodes.length - (currentIdx + 2))).foldl
    (fun acc targetIdx =>
      if isLineOfSightClear cfg grid (pathNodes.getD currentIdx dummyNode)
          (pathNodes.getD targetIdx dummyNode) pathNodes currentIdx targetIdx
      then targetIdx else acc)
    (currentIdx + 1)

/-- The while loop of `smoothPath`, with fuel.  Each iteration strictly
advances the anchor index, so a fuel of `pathNodes.length` always reaches
the exit condition. -/
def smoothLoop (cfg : Config) (grid : Grid) (pathNodes : List Node) :
    Nat → Nat → List Node
  | 0, _ => []
  | fuel + 1, currentIdx =>
    if currentIdx < pathNodes.length - 1 then
      let fv := furthestValid cfg grid pathNodes currentIdx
      pathNodes.getD fv dummyNode :: smoothLoop cfg grid pathNodes fuel fv
    else []

/-- `smoothPath(pathNodes, grid)`: greedy string pulling. -/
def smoothPath (cfg : Config) (pathNodes : List Node) (grid : Grid) : List Node :=
  if pathNodes.length ≤ 2 then pathNodes
  else pathNodes.getD 0 dummyNode ::
    smoothLoop cfg grid pathNodes pathNodes.length 0

/-- Search context: the grid, config and distance function plus the derived
constants computed at the top of `optimizeFlightPath`. -/
structure Ctx where
  cfg : Config
  dist : GridPoint → GridPoint → ℚ
  grid : Grid
  numLanes : Nat
  numSteps : Nat
  centerLane : Nat

/-- Build the context exactly as the head of `optimizeFlightPath` does:
`numLanes = grid.lanes.length`, `numSteps = grid.lanes[0].length`,
`centerLaneIdx = Math.floor(numLanes / 2)`. -/
def mkCtx (cfg : Config) (dist : GridPoint → GridPoint → ℚ) (grid : Grid) : Ctx :=
  { cfg := cfg
    dist := dist
    grid := grid
    numLanes := grid.lanes.length
    numSteps := (grid.lanes.getD 0 []).length
    centerLane := grid.lanes.length / 2 }

/-- Mutable search state of the A* loop. -/
structure SState where
  openSet : List Node
  closedSet : List (Nat × Nat)
  gScore : List ((Nat × Nat) × ℚ)
  cameFrom : List ((Nat × Nat) × Node)

/-- `minSafeAlt` at a grid point as the A* relaxation computes it (source
lines 168-169): `Math.max(nextPoint.obstacleHeight, nextPoint.terrainHeight)
+ SAFETY_BUFFER_M` with NO defaulting of the absent obstacle height, so an
absent `obstacleHeight` makes the whole expression NaN (`none`). -/
def minSafeAltAt (cfg : Config) (p : GridPoint) : Option ℚ :=
  jsAdd (jsMax p.obstacleHeight (some p.terrainHeight)) (some cfg.SAFETY_BUFFER_M)

/-- The feasibility gate of the A* relaxation (source lines 170-174):
`minSafeAlt > nextPoint.terrainHeight + FAA_LIMIT_AGL` triggers `continue`.
When `obstacleHeight` is absent, `minSafeAlt` is NaN and the comparison is
false, so the gate never fires. -/
def gateSkips (cfg : Config) (p : GridPoint) : Bool :=
  jsGt (minSafeAltAt cfg p) (some (p.terrainHeight + cfg.FAA_LIMIT_AGL))

/-- `altCost` (source lines 183-187): a climb penalty only when
`currentAlt < targetAlt`; any NaN operand makes the guard false. -/
def climbCost (cfg : Config) (currentAlt targetAlt : Option ℚ) : ℚ :=
  match currentAlt, targetAlt with
  | some c, some t => if c < t then (t - c) * cfg.COST_CLIMB_PENALTY else 0
  | _, _ => 0

/-- `proximityCost` (source lines 191-208): one penalty per in-bounds
adjacent lane whose minimum safe altitude exceeds the chosen cruise
altitude. -/
def proxCost (C : Ctx) (nextLane nextStep : Nat) (cruiseAlt : Option ℚ) : ℚ :=
  (if 0 < nextLane ∧
      jsGt (minSafeAltAt C.cfg (gridPointAt C.grid (nextLane - 1) nextStep)) cruiseAlt
   then C.cfg.COST_PROXIMITY_PENALTY else 0) +
  (if nextLane < C.numLanes - 1 ∧
      jsGt (minSafeAltAt C.cfg (gridPointAt C.grid (nextLane + 1) nextStep)) cruiseAlt
   then C.cfg.COST_PROXIMITY_PENALTY else 0)

/-- The full step cost of the edge from `current` into `(nextStep,
nextLane)` (source lines 176-210). -/
def stepCostOf (C : Ctx) (current : Node) (nextLane : Nat) : ℚ :=
  let nextStep := current.step + 1
  let nextPoint := gridPointAt C.grid nextLane nextStep
  let currPoint := gridPointAt C.grid current.lane current.step
  let timeToTravel := C.dist currPoint nextPoint / C.cfg.CRUISE_SPEED_MPS
  let targetAlt := minSafeAltAt C.cfg nextPoint
  let altCost := climbCost C.cfg current.alt targetAlt
  let laneChangeCost := (((nextLane : ℤ) - (current.lane : ℤ)).natAbs : ℚ) * C.cfg.COST_LANE_CHANGE
  let cruiseAlt := jsMax current.alt targetAlt
  timeToTravel + altCost + laneChangeCost + proxCost C nextLane nextStep cruiseAlt

/-- The tentative g-score `gScore[current.id] + stepCost` (source line
211).  The key `current.id` is always present in the map when the JS code
reads it; the `getD 0` default is never reached. -/
def tentativeGOf (C : Ctx) (g : List ((Nat × Nat) × ℚ)) (current : Node)
    (nextLane : Nat) : ℚ :=
  (g.lookup (nodeId current)).getD 0 + stepCostOf C current nextLane

/-- The relaxation guard `tentativeG < (gScore[nextId] || Infinity)`
(source line 213).  JS `||` treats a stored 0 exactly like a missing entry:
both become Infinity, making the guard true. -/
def relaxGuard (tentativeG : ℚ) (recorded : Option ℚ) : Bool :=
  match recorded with
  | none => true
  | some g => if g = 0 then true else tentativeG < g

/-- Relaxation of one edge `current -> (current.step + 1, nextLane)`
(source lines 163-237): skip closed targets, apply the feasibility gate,
and on a successful guard overwrite predecessor, g-score and open-set
entry (updating the existing entry in place or appending a new one). -/
def relaxEdge (C : Ctx) (current : Node) (nextLane : Nat) (st : SState) : SState :=
  let nextStep := current.step + 1
  let nextId := (nextStep, nextLane)
  if st.closedSet.contains nextId then st
  else
    let nextPoint := gridPointAt C.grid nextLane nextStep
    if gateSkips C.cfg nextPoint then st
    else
      let targetAlt := minSafeAltAt C.cfg nextPoint
      let tentativeG := tentativeGOf C st.gScore current nextLane
      if relaxGuard tentativeG (st.gScore.lookup nextId) then
        let endPoint := gridPointAt C.grid C.centerLane (C.numSteps - 1)
        let hScore := C.dist nextPoint endPoint / C.cfg.CRUISE_SPEED_MPS
        let newNode : Node :=
          { step := nextStep
            lane := nextLane
            gScore := tentativeG
            fScore := tentativeG + hScore
            alt := jsMax current.alt targetAlt }
        { st with
          cameFrom := (nextId, current) :: st.cameFrom
          gScore := (nextId, tentativeG) :: st.gScore
          openSet :=
            if st.openSet.any (fun n => nodeId n = nextId) then
              st.openSet.map (fun n => if nodeId n = nextId then newNode else n)
            else
              st.openSet ++ [newNode] }
      else st

/-- `[current.lane - 1, current.lane, current.lane + 1]` filtered to the
valid lane range (source lines 160-161). -/
def candidateLanes (numLanes lane : Nat) : List Nat :=
  (([(lane : ℤ) - 1, (lane : ℤ), (lane : ℤ) + 1].filter
      (fun l => decide (0 ≤ l) && decide (l < (numLanes : ℤ)))).map Int.toNat)

/-- Stable insertion by f-score. -/
def insertByF (n : Node) : List Node → List Node
  | [] => [n]
  | m :: ms => if n.fScore ≤ m.fScore then n :: m :: ms else m :: insertByF n ms

/-- Stable insertion sort by f-score; computes the unique stable sorted
permutation, i.e. exactly the result of the JS
`openSet.sort((a, b) => a.fScore - b.fScore)`. -/
def sortByF : List Node → List Node
  | [] => []
  | n :: ns => insertByF n (sortByF ns)

/-- The A* while loop (source lines 146-239), with fuel.  Returns the
popped goal node (if any), the final state (whose `cameFrom` the caller
backtracks through), and the visit counter. -/
def aStarLoop (C : Ctx) : Nat → SState → Nat → Option Node × SState × Nat
  | 0, st, visited => (none, st, visited)
  | fuel + 1, st, visited =>
    match sortByF st.openSet with
    | [] => (none, st, visited)
    | current :: rest =>
      let visited := visited + 1
      if current.step = C.numSteps - 1 ∧ current.lane = C.centerLane then
        (some current, st, visited)
      else
        let closed := nodeId current :: st.closedSet
        if C.numSteps ≤ current.step + 1 then
          aStarLoop C fuel { st with openSet := rest, closedSet := closed } visited
        else
          let st1 := (candidateLanes C.numLanes current.lane).foldl
            (fun s l => relaxEdge C current l s)
            { st with openSet := rest, closedSet := closed }
          aStarLoop C fuel st1 visited

/-- The initial search state: the start node at step 0 on the center lane
with its terrain altitude, g-score 0 (source lines 129-141). -/
def startNodeOf (C : Ctx) : Node :=
  { step := 0
    lane := C.centerLane
    gScore := 0
    fScore := 0
    alt := some (gridPointAt C.grid C.centerLane 0).terrainHeight }

/-- Run the A* search.  The fuel `numLanes * numSteps + 1` bounds the pops
the JS loop can make (each non-final pop closes a fresh node id). -/
def aStarSearch (C : Ctx) : Option Node × SState × Nat :=
  aStarLoop C (C.numLanes * C.numSteps + 1)
    { openSet := [startNodeOf C]
      closedSet := []
      gScore := [((0, C.centerLane), 0)]
      cameFrom := [] }
    0

/-- Backtracking through `cameFrom` (source lines 250-255), final node
first.  The fuel `n.step + 1` bounds the chain length because every stored
predecessor sits exactly one step earlier. -/
def reconstruct (cf : List ((Nat × Nat) × Node)) : Nat → Node → List Node
  | 0, n => [n]
  | fuel + 1, n =>
    match cf.lookup (nodeId n) with
    | none => [n]
    | some p => n :: reconstruct cf fuel p

/-- Ground phase selection `isFirst ? GROUND_START : (isLast ? GROUND_END :
GROUND_WAYPOINT)` (source line 282). -/
def groundPhaseFor (isFirst isLast : Bool) : Phase :=
  if isFirst then .GROUND_START else if isLast then .GROUND_END else .GROUND_WAYPOINT

/-- A cruise-altitude waypoint at the grid point of lane and step. -/
def cruiseWpAt (grid : Grid) (lane step : Nat) (maxCruiseAlt : Option ℚ)
    (ph : Phase) : Waypoint :=
  let p := gridPointAt grid lane step
  { lat := p.lat, lon := p.lon, alt := maxCruiseAlt, phase := ph, prio := 1 }

/-- State of the inner cruise walk of the annotator (source lines
296-298). -/
structure CruiseSt where
  lastOutputLane : Nat
  lastOutputNode : Option Node
  lastBefore : Option Node
  acc : List Waypoint

/-- One iteration of the annotator walk over the smoothed path (source
lines 301-345): emit a corner and a cruise waypoint on a lane change, an
intermediate waypoint when the same-lane distance exceeds 15 meters, and
always remember the node as the next corner anchor. -/
def cruiseStep (C : Ctx) (maxCruiseAlt : Option ℚ) (stepIdx nextStepIdx : Nat)
    (s : CruiseSt) (node : Node) : CruiseSt :=
  if stepIdx < node.step ∧ node.step < nextStepIdx then
    let s1 :=
      if node.lane ≠ s.lastOutputLane then
        let s0 :=
          match s.lastBefore with
          | some prev =>
            { s with
              acc := s.acc ++ [cruiseWpAt C.grid prev.lane prev.step maxCruiseAlt .CRUISE_CORNER]
              lastOutputNode := some prev }
          | none => s
        { s0 with
          acc := s0.acc ++ [cruiseWpAt C.grid node.lane node.step maxCruiseAlt .CRUISE]
          lastOutputLane := node.lane
          lastOutputNode := some node }
      else
        match s.lastOutputNode with
        | some last =>
          if C.dist (gridPointAt C.grid last.lane last.step)
              (gridPointAt C.grid node.lane node.step) > 15 then
            { s with
              acc := s.acc ++ [cruiseWpAt C.grid node.lane node.step maxCruiseAlt .CRUISE_INTERMEDIATE]
              lastOutputNode := some node }
          else s
        | none => s
    { s1 with lastBefore := some node }
  else s

/-- All cruise-family waypoints of one leg: the walk over the smoothed path
starting from the center lane with empty anchors. -/
def legCruise (C : Ctx) (maxCruiseAlt : Option ℚ) (smoothed : List Node)
    (stepIdx nextStepIdx : Nat) : List Waypoint :=
  (smoothed.foldl (cruiseStep C maxCruiseAlt stepIdx nextStepIdx)
    { lastOutputLane := C.centerLane
      lastOutputNode := none
      lastBefore := none
      acc := [] }).acc

/-- The ground waypoint of a user stop (source lines 278-284). -/
def groundWpAt (C : Ctx) (stepIdx : Nat) (isFirst isLast : Bool) : Waypoint :=
  let p := gridPointAt C.grid C.centerLane stepIdx
  { lat := p.lat, lon := p.lon, alt := some p.terrainHeight
    phase := groundPhaseFor isFirst isLast, prio := 1 }

/-- The vertical ascent waypoint of a leg (source lines 287-293). -/
def ascentWpAt (C : Ctx) (stepIdx : Nat) (maxCruiseAlt : Option ℚ) : Waypoint :=
  cruiseWpAt C.grid C.centerLane stepIdx maxCruiseAlt .VERTICAL_ASCENT

/-- The vertical descent waypoint of a leg (source lines 347-354). -/
def descentWpAt (C : Ctx) (nextStepIdx : Nat) (maxCruiseAlt : Option ℚ) : Waypoint :=
  cruiseWpAt C.grid C.centerLane nextStepIdx maxCruiseAlt .VERTICAL_DESCENT

/-- The annotator loop over the user waypoint indices (source lines
272-356).  For each non-final stop: ground waypoint, vertical ascent, the
cruise walk of the leg, then a vertical descent at the next stop. -/
def annotateLegs (C : Ctx) (maxCruiseAlt : Option ℚ) (smoothed : List Node) :
    Bool → List Nat → List Waypoint
  | _, [] => []
  | isFirst, [stepIdx] => [groundWpAt C stepIdx isFirst true]
  | isFirst, stepIdx :: nextStepIdx :: rest =>
    groundWpAt C stepIdx isFirst false ::
    ascentWpAt C stepIdx maxCruiseAlt ::
    (legCruise C maxCruiseAlt smoothed stepIdx nextStepIdx ++
      (descentWpAt C nextStepIdx maxCruiseAlt ::
        annotateLegs C maxCruiseAlt smoothed false (nextStepIdx :: rest)))

/-- The raw A* path: backtrack from the popped goal node and reverse
(source lines 250-256); empty when the search failed. -/
def rawPathOf (C : Ctx) : List Node :=
  match aStarSearch C with
  | (none, _, _) => []
  | (some final, st, _) => (reconstruct st.cameFrom (final.step + 1) final).reverse

/-- `maxCruiseAlt` (source lines 267-270): a fold of `Math.max` over the
altitudes of the RAW path nodes, seeded with 0. -/
def maxCruiseAltOf (C : Ctx) : Option ℚ :=
  (rawPathOf C).foldl (fun acc n => jsMax acc n.alt) (some 0)

/-- The smoothed path handed to the annotator (source line 260). -/
def smoothedOf (C : Ctx) : List Node :=
  smoothPath C.cfg (rawPathOf C) C.grid

/-- The `stats` object of a successful planning result. -/
structure RouteStats where
  avgAGL : Option ℚ
  maxAGL : Option ℚ
  maxAltitude : Option ℚ
deriving DecidableEq, Repr

/-- The planning result.  Fields that only one of the two JS result shapes
carries are `Option`s (`none` = the JS object lacks the field). -/
structure RouteResult where
  success : Bool
  waypoints : List Waypoint
  impossibleSegments : Option (List Waypoint)
  optimizedPoints : Option Nat
  nodesVisited : Option Nat
  stats : Option RouteStats
deriving DecidableEq, Repr

/-- The explicit no-path result (source lines 243-247). -/
def failureResult : RouteResult :=
  { success := false
    waypoints := []
    impossibleSegments := some []
    optimizedPoints := none
    nodesVisited := none
    stats := none }

/-- `RouteEngine.optimizeFlightPath(originalWaypoints, grid)` (the
`originalWaypoints` argument is unused by the source).  `dist` is the
distance function (haversine in the source). -/
def optimizeFlightPath (cfg : Config) (dist : GridPoint → GridPoint → ℚ)
    (grid : Grid) : RouteResult :=
  let C := mkCtx cfg dist grid
  match aStarSearch C with
  | (none, _, _) => failureResult
  | (some _, _, visited) =>
    let smoothed := smoothedOf C
    let maxCruiseAlt := maxCruiseAltOf C
    let wpIdxs := grid.waypointIndices.getD [0, C.numSteps - 1]
    let fw := annotateLegs C maxCruiseAlt smoothed true wpIdxs
    let startTerrain := (gridPointAt C.grid C.centerLane 0).terrainHeight
    { success := true
      waypoints := fw
      impossibleSegments := none
      optimizedPoints := some fw.length
      nodesVisited := some visited
      stats := some
        { avgAGL := jsSub maxCruiseAlt (some startTerrain)
          maxAGL := jsSub maxCruiseAlt (some startTerrain)
          maxAltitude := maxCruiseAlt } }

/-- The external height oracle consumed by `validateAndFixSegments`: per
segment index, either a thrown error or a list of per-sample clamped
surface heights (`none` = an unresolvable sample). -/
abbrev Oracle : Type := Nat → Except Unit (List (Option ℚ))

/-- Ground phases (skipped by the segment validator). -/
def isGroundPhase : Phase → Bool
  | .GROUND_START => true
  | .GROUND_WAYPOINT => true
  | .GROUND_END => true
  | _ => false

/-- One iteration of the collision scan (source lines 414-437): skip an
unresolvable sample, otherwise append a detour waypoint at parameter
`t = (j + 1) / checks` when the clamped height plus the safety buffer
exceeds the segment altitude. -/
def collisionStep (cfg : Config) (checks : Nat) (wp nextWp : Waypoint)
    (acc : List Waypoint) (ji : Nat × Option ℚ) : List Waypoint :=
  match ji.2 with
  | none => acc
  | some h =>
    let minSafeAlt := h + cfg.SAFETY_BUFFER_M
    if jsGt (some minSafeAlt) wp.alt then
      let t : ℚ := ((ji.1 : ℚ) + 1) / (checks : ℚ)
      acc ++ [{ lat := wp.lat + t * (nextWp.lat - wp.lat)
                lon := wp.lon + t * (nextWp.lon - wp.lon)
                alt := some (minSafeAlt + 10)
                phase := .CRUISE_DETOUR
                prio := 1
                obstacleHeight := some h }]
    else acc

/-- The collision points of one segment: the scan over the indexed oracle
response. -/
def collisionsFor (cfg : Config) (checks : Nat) (wp nextWp : Waypoint)
    (hs : List (Option ℚ)) : List Waypoint :=
  hs.enum.foldl (collisionStep cfg checks wp nextWp) []

/-- The pruning of a segment collision list (source lines 442-448): keep
only the first and (when more than one exists) the last collision
point. -/
def pickDetours : List Waypoint → List Waypoint
  | [] => []
  | c :: rest => c :: (if rest.isEmpty then [] else [(c :: rest).getLastD c])

/-- The detour waypoints inserted after one waypoint (source lines
387-448): skip the final index implicitly (handled by the caller), skip
ground phases and the ascent/descent transition, treat an oracle error or
an empty response as no collisions, and otherwise insert the pruned
collision points. -/
def segmentDetours (cfg : Config) (orc : Oracle) (i : Nat) (wp nextWp : Waypoint) :
    List Waypoint :=
  if isGroundPhase wp.phase then []
  else if wp.phase = .VERTICAL_ASCENT ∨ nextWp.phase = .VERTICAL_DESCENT then []
  else
    match orc i with
    | .error _ => []
    | .ok hs => pickDetours (collisionsFor cfg 5 wp nextWp hs)

/-- The segment loop of `validateAndFixSegments` (source lines 383-449):
push each waypoint, then the detours of its outgoing segment. -/
def valLoop (cfg : Config) (orc : Oracle) : Nat → List Waypoint → List Waypoint
  | _, [] => []
  | _, [wp] => [wp]
  | i, wp :: nextWp :: rest =>
    wp :: (segmentDetours cfg orc i wp nextWp ++ valLoop cfg orc (i + 1) (nextWp :: rest))

/-- `RouteEngine.validateAndFixSegments(waypoints, viewer)`: return the
input unchanged without an oracle or with fewer than 2 waypoints. -/
def validateAndFixSegments (cfg : Config) (waypoints : List Waypoint)
    (viewer : Option Oracle) : List Waypoint :=
  match viewer with
  | none => waypoints
  | some orc =>
    if waypoints.length < 2 then waypoints else valLoop cfg orc 0 waypoints

/-! ### Helper lemmas -/

theorem rmax_eq_max (a b : ℚ) : rmax a b = max a b := (max_def a b).symm

theorem jsMax_idem (a : Option ℚ) : jsMax a a = a := by
  cases a <;> simp [jsMax, rmax_eq_max]

theorem jsMax_comm (a b : Option ℚ) : jsMax a b = jsMax b a := by
  cases a <;> cases b <;> simp [jsMax, rmax_eq_max, max_comm]

theorem jsMax_assoc (a b c : Option ℚ) :
    jsMax (jsMax a b) c = jsMax a (jsMax b c) := by
  cases a <;> cases b <;> cases c <;> simp [jsMax, rmax_eq_max, max_assoc]

theorem jsMax_absorb (a b : Option ℚ) : jsMax a (jsMax a b) = jsMax a b := by
  rw [← jsMax_assoc, jsMax_idem]

/-! ### Concrete fixtures used by witnesses and counterexamples -/

/-- The zero distance function used to instantiate the distance parameter
in concrete runs. -/
def zeroDist : GridPoint → GridPoint → ℚ := fun _ _ => 0

/-- A grid point at the origin with the given heights. -/
def gp (t : ℚ) (o : Option ℚ) : GridPoint := ⟨0, 0, t, o⟩

/-- A flat single-lane two-step grid on which the search succeeds. -/
def flatGrid : Grid := ⟨[[gp 0 (some 0), gp 0 (some 0)]], none⟩

/-- A single-lane two-step grid whose second step carries a 200 m obstacle:
every edge into step 1 is pruned by the feasibility gate, so the open set
exhausts without reaching the goal. -/
def blockedGrid : Grid := ⟨[[gp 0 (some 0), gp 0 (some 200)]], none⟩

/-! ### Claim C1 -/

/-- The grid of the C1 counterexample: absent obstacle heights over deeply
negative terrain. -/
def c1Grid : Grid := ⟨[[gp (-200) none, gp (-200) none]], none⟩

/-- The relaxation state of the C1 counterexample: the start node has just
been popped and closed. -/
def c1St : SState :=
  { openSet := []
    closedSet := [(0, 0)]
    gScore := [((0, 0), 0)]
    cameFrom := [] }

/-- C1 counterexample.  At the grid point with `terrainHeight = -200` and
absent `obstacleHeight`, the minimum safe altitude of the claim
(`max(obstacleHeight || 0, terrain) + safetyBuffer = 15`) exceeds the
regulatory ceiling (`terrain + FAA_LIMIT_AGL = -79`), so the claim says the
transition must be skipped; but the code computes
`Math.max(undefined, -200) = NaN`, the gate comparison is false, and the
relaxation adds the node to the open set anyway. -/
theorem claim_C1_counterexample :
    (gridPointAt c1Grid 0 1).terrainHeight + defaultConfig.FAA_LIMIT_AGL <
      max ((gridPointAt c1Grid 0 1).obstacleHeight.getD 0)
        (gridPointAt c1Grid 0 1).terrainHeight + defaultConfig.SAFETY_BUFFER_M ∧
    gateSkips defaultConfig (gridPointAt c1Grid 0 1) = false ∧
    (relaxEdge (mkCtx defaultConfig zeroDist c1Grid)
        (startNodeOf (mkCtx defaultConfig zeroDist c1Grid)) 0 c1St).openSet ≠ [] := by
  refine ⟨by norm_num [gridPointAt, c1Grid, gp, defaultConfig], by decide, by decide⟩

/-- C1 (amended).  The feasibility gate of the A* relaxation fires if and
only if the obstacle height is PRESENT and
`max(obstacleHeight, terrainHeight) + safetyBuffer` exceeds
`terrainHeight + FAA_LIMIT_AGL`; an absent obstacle height makes the gate
comparison a NaN comparison, which never fires.  Whenever the gate fires,
the edge is skipped entirely: the relaxation leaves the search state
unchanged (nothing is relaxed, nothing enters the open set via that
edge). -/
theorem claim_C1_amended (cfg : Config) (p : GridPoint) :
    (gateSkips cfg p = true ↔
      ∃ o, p.obstacleHeight = some o ∧
        p.terrainHeight + cfg.FAA_LIMIT_AGL < max o p.terrainHeight + cfg.SAFETY_BUFFER_M) ∧
    ∀ (C : Ctx) (current : Node) (nextLane : Nat) (st : SState),
      gateSkips C.cfg (gridPointAt C.grid nextLane (current.step + 1)) = true →
      relaxEdge C current nextLane st = st := by
  constructor
  · cases h : p.obstacleHeight with
    | none => simp [gateSkips, minSafeAltAt, jsAdd, jsMax, jsGt, h]
    | some o =>
      simp only [gateSkips, minSafeAltAt, jsAdd, jsMax, jsGt, h, rmax_eq_max]
      constructor
      · intro hlt
        exact ⟨o, rfl, by simpa using hlt⟩
      · rintro ⟨o', ho', hlt⟩
        obtain rfl : o' = o := by simpa using ho'.symm
        simpa using hlt
  · intro C current nextLane st hgate
    simp [relaxEdge, hgate]

unseal Rat.add Rat.mul Rat.sub Rat.inv in
/-- Witness for C1 (amended): on a present 200 m obstacle over flat
terrain the gate fires and the relaxation is a no-op. -/
theorem claim_C1_witness :
    relaxEdge (mkCtx defaultConfig zeroDist blockedGrid)
      (startNodeOf (mkCtx defaultConfig zeroDist blockedGrid)) 0 c1St = c1St :=
  (claim_C1_amended defaultConfig (gp 0 (some 200))).2
    (mkCtx defaultConfig zeroDist blockedGrid)
    (startNodeOf (mkCtx defaultConfig zeroDist blockedGrid)) 0 c1St (by decide)

/-! ### Claim C2 -/

/-- C2.  Whenever the A* search comes back empty (the open set was
exhausted without popping the goal node at the last step and center lane),
`optimizeFlightPath` returns normally (the model is a total function) with
the explicit failure object: `success = false` and empty `waypoints`. -/
theorem claim_C2_failure_result (cfg : Config) (dist : GridPoint → GridPoint → ℚ)
    (grid : Grid) (h : (aStarSearch (mkCtx cfg dist grid)).1 = none) :
    optimizeFlightPath cfg dist grid = failureResult ∧
    (optimizeFlightPath cfg dist grid).success = false ∧
    (optimizeFlightPath cfg dist grid).waypoints = [] := by
  have hres : optimizeFlightPath cfg dist grid = failureResult := by
    rcases hA : aStarSearch (mkCtx cfg dist grid) with ⟨o, st2, v2⟩
    rw [hA] at h
    simp only at h
    subst h
    simp only [optimizeFlightPath, hA]
  exact ⟨hres, by rw [hres]; rfl, by rw [hres]; rfl⟩

unseal Rat.add Rat.mul Rat.sub Rat.inv in
/-- Witness for C2: on `blockedGrid` the feasibility gate prunes every
edge into step 1, the open set exhausts, and the failure result is
returned. -/
theorem claim_C2_witness :
    optimizeFlightPath defaultConfig zeroDist blockedGrid = failureResult ∧
    (optimizeFlightPath defaultConfig zeroDist blockedGrid).success = false ∧
    (optimizeFlightPath defaultConfig zeroDist blockedGrid).waypoints = [] :=
  claim_C2_failure_result defaultConfig zeroDist blockedGrid (by decide)

/-! ### Claim C10 -/

/-- C10.  On every successful planning call the returned stats are present
and satisfy `avgAGL = maxAGL`, both equal to the global max cruise
altitude minus the terrain height of the start cell (center lane, step 0);
`avgAGL` is not an average over the route but literally the same
difference as `maxAGL`. -/
theorem claim_C10_agl_stats (cfg : Config) (dist : GridPoint → GridPoint → ℚ)
    (grid : Grid) (h : (optimizeFlightPath cfg dist grid).success = true) :
    ∃ s, (optimizeFlightPath cfg dist grid).stats = some s ∧
      s.avgAGL = s.maxAGL ∧
      s.avgAGL = jsSub (maxCruiseAltOf (mkCtx cfg dist grid))
        (some (gridPointAt grid (mkCtx cfg dist grid).centerLane 0).terrainHeight) ∧
      s.maxAltitude = maxCruiseAltOf (mkCtx cfg dist grid) := by
  rcases hA : aStarSearch (mkCtx cfg dist grid) with ⟨o, st, v⟩
  simp only [optimizeFlightPath, hA] at h ⊢
  cases o with
  | none => simp [failureResult] at h
  | some final =>
    refine ⟨_, rfl, rfl, rfl, rfl⟩

unseal Rat.add Rat.mul Rat.sub Rat.inv in
/-- Witness for C10 on the flat grid: the stats record equal AGL values
computed from the max cruise altitude and the start terrain. -/
theorem claim_C10_witness :
    ∃ s, (optimizeFlightPath defaultConfig zeroDist flatGrid).stats = some s ∧
      s.avgAGL = s.maxAGL ∧
      s.avgAGL = jsSub (maxCruiseAltOf (mkCtx defaultConfig zeroDist flatGrid))
        (some (gridPointAt flatGrid (mkCtx defaultConfig zeroDist flatGrid).centerLane 0).terrainHeight) ∧
      s.maxAltitude = maxCruiseAltOf (mkCtx defaultConfig zeroDist flatGrid) :=
  claim_C10_agl_stats defaultConfig zeroDist flatGrid (by decide)

/-! ### Claim C4 -/

/-- The grid of the C4 counterexample: flat, one lane, two steps. -/
def c4Grid : Grid := ⟨[[gp 0 (some 0), gp 0 (some 0)]], none⟩

/-- The current node of the C4 counterexample: popped at step 0 with a
high carried altitude, so the step into step 1 has zero cost under the
zero distance function. -/
def c4Current : Node := ⟨0, 0, 0, 0, some 100⟩

/-- A previously stored predecessor of node `(1, 0)`, distinct from
`c4Current`. -/
def c4Other : Node := ⟨0, 0, 0, 0, some 50⟩

/-- The relaxation state of the C4 counterexample: node `(1, 0)` has a
recorded best g-score of 0 and stored predecessor `c4Other`. -/
def c4St : SState :=
  { openSet := [⟨1, 0, 0, 0, some 15⟩]
    closedSet := [(0, 0)]
    gScore := [((0, 0), 0), ((1, 0), 0)]
    cameFrom := [((1, 0), c4Other)] }

unseal Rat.add Rat.mul Rat.sub Rat.inv in
/-- C4 counterexample.  Relaxing the edge `c4Current -> (1, 0)` computes a
tentative g-score of 0, which is NOT strictly smaller than the recorded
best g-score 0; the claim says the stored predecessor must therefore never
be overwritten, yet the code (via `tentativeG < (gScore[nextId] ||
Infinity)`, where the stored 0 is falsy and becomes Infinity) overwrites
the stored predecessor of `(1, 0)` from `c4Other` to `c4Current`. -/
theorem claim_C4_counterexample :
    tentativeGOf (mkCtx defaultConfig zeroDist c4Grid) c4St.gScore c4Current 0 = 0 ∧
    c4St.gScore.lookup (1, 0) = some 0 ∧
    c4St.cameFrom.lookup (1, 0) = some c4Other ∧
    (relaxEdge (mkCtx defaultConfig zeroDist c4Grid) c4Current 0 c4St).cameFrom.lookup (1, 0) =
      some c4Current ∧
    c4Current ≠ c4Other := by
  refine ⟨by decide, by decide, by decide, by decide, by decide⟩

/-- C4 (amended).  The relaxation guard of the A* update is
`tentativeG < (gScore[nextId] || Infinity)`: the stored predecessor,
g-score and f-score of a node are overwritten if and only if the new
tentative g is strictly smaller than the recorded best, EXCEPT that a
recorded best of exactly 0 is falsy in JS and is treated like a missing
entry (Infinity), so it is always overwritten.  When the guard fails the
relaxation changes nothing. -/
theorem claim_C4_relax_guard (t : ℚ) (recorded : Option ℚ) :
    (relaxGuard t recorded = true ↔
      recorded = none ∨ recorded = some 0 ∨ ∃ g, recorded = some g ∧ t < g) ∧
    ∀ (C : Ctx) (current : Node) (nextLane : Nat) (st : SState),
      st.closedSet.contains (current.step + 1, nextLane) = false →
      gateSkips C.cfg (gridPointAt C.grid nextLane (current.step + 1)) = false →
      ((relaxGuard (tentativeGOf C st.gScore current nextLane)
          (st.gScore.lookup (current.step + 1, nextLane)) = false →
        relaxEdge C current nextLane st = st) ∧
       (relaxGuard (tentativeGOf C st.gScore current nextLane)
          (st.gScore.lookup (current.step + 1, nextLane)) = true →
        (relaxEdge C current nextLane st).cameFrom.lookup (current.step + 1, nextLane) =
          some current ∧
        (relaxEdge C current nextLane st).gScore.lookup (current.step + 1, nextLane) =
          some (tentativeGOf C st.gScore current nextLane))) := by
  constructor
  · cases recorded with
    | none => simp [relaxGuard]
    | some g =>
      by_cases hg : g = 0
      · subst hg; simp [relaxGuard]
      · simp [relaxGuard, hg]
  · intro C current nextLane st hclosed hgate
    constructor
    · intro hguard
      simp [relaxEdge, hclosed, hgate, hguard]
    · intro hguard
      simp only [relaxEdge, hclosed, hgate, hguard]
      constructor
      · simp [List.lookup]
      · simp [List.lookup]

unseal Rat.add Rat.mul Rat.sub Rat.inv in
/-- Witness for C4 (amended): a concrete relaxation whose guard holds
stores the new predecessor and g-score. -/
theorem claim_C4_witness :
    (relaxEdge (mkCtx defaultConfig zeroDist c4Grid) c4Current 0 c4St).cameFrom.lookup (1, 0) =
      some c4Current ∧
    (relaxEdge (mkCtx defaultConfig zeroDist c4Grid) c4Current 0 c4St).gScore.lookup (1, 0) =
      some (tentativeGOf (mkCtx defaultConfig zeroDist c4Grid) c4St.gScore c4Current 0) :=
  ((claim_C4_relax_guard 0 (some 0)).2 (mkCtx defaultConfig zeroDist c4Grid)
    c4Current 0 c4St (by decide) (by decide)).2 (by decide)

/-! ### Claim C5 -/

/-- C5 counterexample.  For adjacent raw indices `iA = 0 < iB = 1` the
claim demands at least `max(5, 2*(1-0)) = 5` evaluated samples, but the
sampling loop `for (i = 1; i < numSamples; i++)` evaluates only
`numSamples - 1 = 4` samples. -/
theorem claim_C5_counterexample :
    (losSampleParams 0 1).length = 4 ∧
    (losSampleParams 0 1).length < max 5 ((1 - 0) * 2) := by
  refine ⟨by decide, by decide⟩

/-- C5 (amended).  The line-of-sight test evaluates exactly
`max(5, 2*(iB-iA)) - 1` uniformly spaced samples (parameters
`t = i / numSamples` for `i = 1 .. numSamples - 1`, endpoints excluded),
one fewer than the claim states, and it returns clear if and only if every
evaluated sample, rounded to the nearest grid step and lane, is inside the
grid bounds, has minimum safe altitude not exceeding `maxAlt`, and both
in-bounds immediately adjacent lanes also have minimum safe altitude not
exceeding `maxAlt`. -/
theorem claim_C5_los_samples (cfg : Config) (grid : Grid) (start en : Node)
    (allNodes : List Node) (startIdx endIdx : Nat) :
    (losSampleParams startIdx endIdx).length = max 5 ((endIdx - startIdx) * 2) - 1 ∧
    (isLineOfSightClear cfg grid start en allNodes startIdx endIdx = true ↔
      ∀ i ∈ losSampleParams startIdx endIdx,
        losSamplePass cfg grid grid.lanes.length (grid.lanes.getD 0 []).length
          (losMaxAlt start en allNodes startIdx endIdx) start en
          (losNumSamples startIdx endIdx) i = true) := by
  constructor
  · simp [losSampleParams, losNumSamples]
  · simp [isLineOfSightClear, List.all_eq_true]

unseal Rat.add Rat.mul Rat.sub Rat.inv in
/-- Witness for C5 (amended) at a concrete call: the segment of the flat
grid evaluates four samples and is clear. -/
theorem claim_C5_witness :
    (losSampleParams 0 1).length = max 5 ((1 - 0) * 2) - 1 ∧
    (isLineOfSightClear defaultConfig flatGrid ⟨0, 0, 0, 0, some 15⟩ ⟨1, 0, 0, 0, some 15⟩
        [⟨0, 0, 0, 0, some 15⟩, ⟨1, 0, 0, 0, some 15⟩] 0 1 = true ↔
      ∀ i ∈ losSampleParams 0 1,
        losSamplePass defaultConfig flatGrid flatGrid.lanes.length
          (flatGrid.lanes.getD 0 []).length
          (losMaxAlt ⟨0, 0, 0, 0, some 15⟩ ⟨1, 0, 0, 0, some 15⟩
            [⟨0, 0, 0, 0, some 15⟩, ⟨1, 0, 0, 0, some 15⟩] 0 1)
          ⟨0, 0, 0, 0, some 15⟩ ⟨1, 0, 0, 0, some 15⟩ (losNumSamples 0 1) i = true) :=
  claim_C5_los_samples defaultConfig flatGrid ⟨0, 0, 0, 0, some 15⟩ ⟨1, 0, 0, 0, some 15⟩
    [⟨0, 0, 0, 0, some 15⟩, ⟨1, 0, 0, 0, some 15⟩] 0 1

/-! ### Claim C6 -/

/-- A fold that either keeps the accumulator or replaces it by a list
element preserves any predicate holding of the accumulator and of every
element. -/
theorem foldl_choice_pred {P : Nat → Prop} (cond : Nat → Bool) :
    ∀ (l : List Nat) (acc : Nat), P acc → (∀ t ∈ l, P t) →
      P (l.foldl (fun a t => if cond t then t else a) acc)
  | [], acc, hacc, _ => hacc
  | t :: ts, acc, hacc, hl => by
    by_cases h : cond t = true
    · simpa [h] using foldl_choice_pred cond ts t (hl t (by simp)) (fun x hx => hl x (by simp [hx]))
    · simpa [h] using foldl_choice_pred cond ts acc hacc (fun x hx => hl x (by simp [hx]))

/-- The furthest valid index stays within `[currentIdx + 1, length)`. -/
theorem furthestValid_bounds (cfg : Config) (grid : Grid) (p : List Node)
    (idx : Nat) (h : idx + 1 < p.length) :
    idx + 1 ≤ furthestValid cfg grid p idx ∧ furthestValid cfg grid p idx < p.length := by
  unfold furthestValid
  refine foldl_choice_pred (P := fun x => idx + 1 ≤ x ∧ x < p.length) _ _ _ ⟨le_refl _, h⟩ ?_
  intro t ht
  rw [List.mem_range'] at ht
  omega

/-- The smoothing loop emits a sublist of the nodes after the anchor. -/
theorem smoothLoop_sublist (cfg : Config) (grid : Grid) (p : List Node) :
    ∀ (fuel idx : Nat), List.Sublist (smoothLoop cfg grid p fuel idx) (p.drop (idx + 1))
  | 0, _ => List.nil_sublist _
  | fuel + 1, idx => by
    by_cases h : idx < p.length - 1
    · have hidx : idx + 1 < p.length := by omega
      obtain ⟨hlow, hhigh⟩ := furthestValid_bounds cfg grid p idx hidx
      have hrec := smoothLoop_sublist cfg grid p fuel (furthestValid cfg grid p idx)
      have hdropfv : p.drop (furthestValid cfg grid p idx) =
          p.getD (furthestValid cfg grid p idx) dummyNode ::
            p.drop (furthestValid cfg grid p idx + 1) := by
        rw [List.getD_eq_getElem p dummyNode hhigh]
        exact List.drop_eq_getElem_cons hhigh
      have hcons : smoothLoop cfg grid p (fuel + 1) idx =
          p.getD (furthestValid cfg grid p idx) dummyNode ::
            smoothLoop cfg grid p fuel (furthestValid cfg grid p idx) := by
        simp [smoothLoop, h]
      rw [hcons]
      have h1 : List.Sublist
          (p.getD (furthestValid cfg grid p idx) dummyNode ::
            smoothLoop cfg grid p fuel (furthestValid cfg grid p idx))
          (p.drop (furthestValid cfg grid p idx)) := by
        rw [hdropfv]
        exact List.Sublist.cons₂ _ hrec
      have h2 : List.Sublist (p.drop (furthestValid cfg grid p idx)) (p.drop (idx + 1)) := by
        have : p.drop (furthestValid cfg grid p idx) =
            (p.drop (idx + 1)).drop (furthestValid cfg grid p idx - (idx + 1)) := by
          rw [List.drop_drop]
          congr 1
          omega
        rw [this]
        exact List.drop_sublist _ _
      exact h1.trans h2
    · simp [smoothLoop, h]

/-- `smoothPath` returns a sublist (a subsequence: no insertion, no
reordering) of its input. -/
theorem smoothPath_sublist (cfg : Config) (p : List Node) (grid : Grid) :
    List.Sublist (smoothPath cfg p grid) p := by
  by_cases h : p.length ≤ 2
  · simp [smoothPath, h]
  · have hpos : 0 < p.length := by omega
    have hp0 : p.getD 0 dummyNode = p[0] := List.getD_eq_getElem p dummyNode hpos
    have hsplit : p = p[0] :: p.drop 1 := by
      conv_lhs => rw [← List.drop_zero p]
      exact List.drop_eq_getElem_cons hpos
    have : smoothPath cfg p grid = p.getD 0 dummyNode ::
        smoothLoop cfg grid p p.length 0 := by
      simp [smoothPath, h]
    rw [this, hp0]
    conv_rhs => rw [hsplit]
    exact List.Sublist.cons₂ _ (smoothLoop_sublist cfg grid p p.length 0)

/-- C6 (amended).  Re-running `smoothPath` on its own output always yields
a subsequence of that output (smoothing never inserts or reorders nodes),
but not necessarily the same list: a second pass can drop further nodes,
because sample counts and the `maxAlt` window are computed from list
indices, which shrink after the first pass. -/
theorem claim_C6_smooth_re_run (cfg : Config) (p : List Node) (grid : Grid) :
    List.Sublist (smoothPath cfg (smoothPath cfg p grid) grid) (smoothPath cfg p grid) :=
  smoothPath_sublist cfg (smoothPath cfg p grid) grid

/-- The grid of the C6 counterexample: one lane, nine steps, flat except a
50 m obstacle at step 7. -/
def c6Grid : Grid :=
  ⟨[[gp 0 (some 0), gp 0 (some 0), gp 0 (some 0), gp 0 (some 0), gp 0 (some 0),
     gp 0 (some 0), gp 0 (some 0), gp 0 (some 50), gp 0 (some 0)]], none⟩

/-- A raw-path node of the C6 counterexample at the given step. -/
def c6Node (s : Nat) : Node := ⟨s, 0, 0, 0, some 20⟩

/-- The raw path of the C6 counterexample. -/
def c6Path : List Node := [c6Node 0, c6Node 1, c6Node 2, c6Node 8]

unseal Rat.add Rat.mul Rat.sub Rat.inv in
/-- C6 counterexample.  On `c6Path` over `c6Grid` the first smoothing pass
keeps the node at step 2 (the direct jump 0 -> 8 is sampled 5 times at
indices 1..5 of 6 and sample `t = 5/6` rounds onto the obstacle step 7),
but the second pass re-samples the jump with only 4 samples at indices
1..4 of 5, misses step 7, and drops the node at step 2: smoothing is not
idempotent. -/
theorem claim_C6_counterexample :
    smoothPath defaultConfig c6Path c6Grid = [c6Node 0, c6Node 2, c6Node 8] ∧
    smoothPath defaultConfig (smoothPath defaultConfig c6Path c6Grid) c6Grid =
      [c6Node 0, c6Node 8] ∧
    smoothPath defaultConfig (smoothPath defaultConfig c6Path c6Grid) c6Grid ≠
      smoothPath defaultConfig c6Path c6Grid := by
  refine ⟨by decide, by decide, by decide⟩

/-! ### Claims C7 and C8 -/

/-- Every waypoint ever appended by the collision scan is a detour
waypoint. -/
theorem collisionsFor_detour_aux (cfg : Config) (checks : Nat) (wp nextWp : Waypoint) :
    ∀ (l : List (Nat × Option ℚ)) (acc : List Waypoint),
      (∀ w ∈ acc, w.phase = Phase.CRUISE_DETOUR) →
      ∀ w ∈ l.foldl (collisionStep cfg checks wp nextWp) acc, w.phase = Phase.CRUISE_DETOUR
  | [], acc, hacc => hacc
  | ji :: l, acc, hacc => by
    refine collisionsFor_detour_aux cfg checks wp nextWp l _ ?_
    intro w hw
    unfold collisionStep at hw
    rcases ji with ⟨j, h⟩
    cases h with
    | none => exact hacc w hw
    | some hv =>
      simp only at hw
      split at hw
      · rcases List.mem_append.1 hw with h1 | h1
        · exact hacc w h1
        · simp at h1
          subst h1
          rfl
      · exact hacc w hw

/-- Every collision point of a segment is a detour waypoint. -/
theorem collisionsFor_detour (cfg : Config) (checks : Nat) (wp nextWp : Waypoint)
    (hs : List (Option ℚ)) :
    ∀ w ∈ collisionsFor cfg checks wp nextWp hs, w.phase = Phase.CRUISE_DETOUR :=
  collisionsFor_detour_aux cfg checks wp nextWp hs.enum [] (by simp)

/-- Every pruned detour is one of the original collision points. -/
theorem pickDetours_subset : ∀ (l : List Waypoint), ∀ w ∈ pickDetours l, w ∈ l
  | [], w, hw => by cases hw
  | [c], w, hw => by
    have : pickDetours [c] = [c] := rfl
    rw [this] at hw
    exact hw
  | c :: d :: ds, w, hw => by
    have : pickDetours (c :: d :: ds) = [c, (c :: d :: ds).getLastD c] := rfl
    rw [this] at hw
    rcases List.mem_pair.1 hw with rfl | rfl
    · simp
    · exact List.getLastD_mem_cons (d :: ds) c

/-- The pruned detour list has at most two entries. -/
theorem pickDetours_length : ∀ (l : List Waypoint), (pickDetours l).length ≤ 2
  | [] => by simp [pickDetours]
  | [c] => by
    have : pickDetours [c] = [c] := rfl
    simp [this]
  | c :: d :: ds => by
    have : pickDetours (c :: d :: ds) = [c, (c :: d :: ds).getLastD c] := rfl
    simp [this]

/-- The pruned detour list is the first collision point, optionally
followed by the last one. -/
theorem pickDetours_shape : ∀ (l : List Waypoint),
    l = [] ∨ ∃ c, l.head? = some c ∧
      (pickDetours l = [c] ∨ pickDetours l = [c, l.getLastD c])
  | [] => Or.inl rfl
  | [c] => Or.inr ⟨c, rfl, Or.inl rfl⟩
  | c :: _d :: _ds => Or.inr ⟨c, rfl, Or.inr rfl⟩

/-- The per-segment insertion is empty or keeps exactly the first and
(when distinct) last collision point. -/
theorem segmentDetours_spec (cfg : Config) (orc : Oracle) (i : Nat) (wp nextWp : Waypoint) :
    (∀ w ∈ segmentDetours cfg orc i wp nextWp, w.phase = Phase.CRUISE_DETOUR) ∧
    (segmentDetours cfg orc i wp nextWp).length ≤ 2 ∧
    (∀ hs, orc i = Except.ok hs →
      segmentDetours cfg orc i wp nextWp = [] ∨
      ∃ c, (collisionsFor cfg 5 wp nextWp hs).head? = some c ∧
        (segmentDetours cfg orc i wp nextWp = [c] ∨
         segmentDetours cfg orc i wp nextWp =
           [c, (collisionsFor cfg 5 wp nextWp hs).getLastD c])) := by
  unfold segmentDetours
  split
  · exact ⟨by simp, by simp, fun hs _ => Or.inl rfl⟩
  · split
    · exact ⟨by simp, by simp, fun hs _ => Or.inl rfl⟩
    · rcases horc : orc i with e | hs0 <;> dsimp only
      · exact ⟨by simp, by simp, fun hs h => by simp at h⟩
      · refine ⟨?_, pickDetours_length _, ?_⟩
        · intro w hw
          exact collisionsFor_detour cfg 5 wp nextWp hs0 w (pickDetours_subset _ w hw)
        · intro hs h
          obtain rfl : hs0 = hs := by cases h; rfl
          rcases pickDetours_shape (collisionsFor cfg 5 wp nextWp hs0) with hnil | ⟨c, hc, hshape⟩
          · rw [hnil]
            exact Or.inl rfl
          · exact Or.inr ⟨c, hc, hshape⟩

/-- The validation loop keeps all input waypoints in order. -/
theorem valLoop_sublist (cfg : Config) (orc : Oracle) :
    ∀ (wps : List Waypoint) (i : Nat), List.Sublist wps (valLoop cfg orc i wps)
  | [], _ => List.nil_sublist _
  | [wp], _ => List.Sublist.refl _
  | wp :: nextWp :: rest, i => by
    have ih := valLoop_sublist cfg orc (nextWp :: rest) (i + 1)
    have h1 : List.Sublist (valLoop cfg orc (i + 1) (nextWp :: rest))
        (segmentDetours cfg orc i wp nextWp ++ valLoop cfg orc (i + 1) (nextWp :: rest)) :=
      List.sublist_append_right _ _
    exact List.Sublist.cons₂ wp (ih.trans h1)

/-- C7.  For every input waypoint list and every oracle, the list returned
by `validateAndFixSegments` contains all input waypoints in their original
relative order (it is a supersequence: insertions only, no removal or
reordering), and the insertion made for any one segment consists of at
most two waypoints, all of phase `CRUISE_DETOUR`, namely the first and
(when more than one collision was found) the last collision point of that
segment. -/
theorem claim_C7_insertions_only (cfg : Config) (wps : List Waypoint) (orc : Oracle) :
    List.Sublist wps (validateAndFixSegments cfg wps (some orc)) ∧
    ∀ (i : Nat) (wp nextWp : Waypoint),
      (∀ w ∈ segmentDetours cfg orc i wp nextWp, w.phase = Phase.CRUISE_DETOUR) ∧
      (segmentDetours cfg orc i wp nextWp).length ≤ 2 ∧
      (∀ hs, orc i = Except.ok hs →
        segmentDetours cfg orc i wp nextWp = [] ∨
        ∃ c, (collisionsFor cfg 5 wp nextWp hs).head? = some c ∧
          (segmentDetours cfg orc i wp nextWp = [c] ∨
           segmentDetours cfg orc i wp nextWp =
             [c, (collisionsFor cfg 5 wp nextWp hs).getLastD c])) := by
  constructor
  · dsimp only [validateAndFixSegments]
    split
    · exact List.Sublist.refl _
    · exact valLoop_sublist cfg orc wps 0
  · exact fun i wp nextWp => segmentDetours_spec cfg orc i wp nextWp

/-- A cruise waypoint used by the C7 and C8 witnesses. -/
def c7Wp : Waypoint := ⟨0, 0, some 20, .CRUISE, 1, none⟩

/-- An oracle whose every segment response is one 100 m clamped height,
which collides with a 20 m cruise altitude. -/
def c7Orc : Oracle := fun _ => .ok [some 100]

unseal Rat.add Rat.mul Rat.sub Rat.inv in
/-- Witness for C7: a concrete validated pair of cruise waypoints whose
segment gets one detour inserted while both inputs survive in order. -/
theorem claim_C7_witness :
    List.Sublist [c7Wp, c7Wp] (validateAndFixSegments defaultConfig [c7Wp, c7Wp] (some c7Orc)) ∧
    validateAndFixSegments defaultConfig [c7Wp, c7Wp] (some c7Orc) =
      [c7Wp, ⟨0, 0, some 125, .CRUISE_DETOUR, 1, some 100⟩, c7Wp] :=
  ⟨(claim_C7_insertions_only defaultConfig [c7Wp, c7Wp] c7Orc).1, by decide⟩

/-- The detours of a segment whose oracle query throws are empty. -/
theorem segmentDetours_error (cfg : Config) (orc : Oracle) (i : Nat)
    (wp nextWp : Waypoint) (h : orc i = Except.error ()) :
    segmentDetours cfg orc i wp nextWp = [] := by
  unfold segmentDetours
  split
  · rfl
  · split
    · rfl
    · rw [h]

/-- The validation loop only depends on the oracle through the per-segment
detours. -/
theorem valLoop_congr (cfg : Config) (orc orc' : Oracle)
    (hdet : ∀ (k : Nat) (wp nextWp : Waypoint),
      segmentDetours cfg orc k wp nextWp = segmentDetours cfg orc' k wp nextWp) :
    ∀ (wps : List Waypoint) (i : Nat), valLoop cfg orc i wps = valLoop cfg orc' i wps
  | [], _ => rfl
  | [_], _ => rfl
  | wp :: nextWp :: rest, i => by
    unfold valLoop
    rw [hdet i wp nextWp, valLoop_congr cfg orc orc' hdet (nextWp :: rest) (i + 1)]

/-- C8.  When the height oracle throws on segment `i`, the error is
contained: that segment contributes no detour, and the whole validation
pass behaves exactly as if the oracle had returned an empty response for
`i` — in particular all subsequent segments are still evaluated and the
pass returns normally instead of propagating the error. -/
theorem claim_C8_oracle_error_contained (cfg : Config) (wps : List Waypoint)
    (orc : Oracle) (i : Nat) (h : orc i = Except.error ()) :
    (∀ wp nextWp, segmentDetours cfg orc i wp nextWp = []) ∧
    validateAndFixSegments cfg wps (some orc) =
      validateAndFixSegments cfg wps (some (Function.update orc i (Except.ok []))) := by
  constructor
  · exact fun wp nextWp => segmentDetours_error cfg orc i wp nextWp h
  · have hdet : ∀ (k : Nat) (wp nextWp : Waypoint),
        segmentDetours cfg orc k wp nextWp =
          segmentDetours cfg (Function.update orc i (Except.ok [])) k wp nextWp := by
      intro k wp nextWp
      by_cases hk : k = i
      · subst hk
        rw [segmentDetours_error cfg orc k wp nextWp h]
        unfold segmentDetours
        split
        · rfl
        · split
          · rfl
          · rw [Function.update_same]
            simp [collisionsFor, pickDetours]
      · unfold segmentDetours
        rw [Function.update_noteq hk]
    dsimp only [validateAndFixSegments]
    split
    · rfl
    · exact valLoop_congr cfg orc (Function.update orc i (Except.ok [])) hdet wps 0

/-- The everywhere-throwing oracle of the C8 witness. -/
def c8Orc : Oracle := fun _ => .error ()

/-- Witness for C8: with a throwing oracle the validated list equals the
one produced by an empty-response oracle (and hence, concretely, the
unchanged input). -/
theorem claim_C8_witness :
    validateAndFixSegments defaultConfig [c7Wp, c7Wp] (some c8Orc) =
      validateAndFixSegments defaultConfig [c7Wp, c7Wp]
        (some (Function.update c8Orc 0 (Except.ok []))) ∧
    validateAndFixSegments defaultConfig [c7Wp, c7Wp] (some c8Orc) = [c7Wp, c7Wp] :=
  ⟨(claim_C8_oracle_error_contained defaultConfig [c7Wp, c7Wp] c8Orc 0 rfl).2, by decide⟩

/-! ### Claim C9 -/

/-- The cruise-family phases the annotator can emit between ascent and
descent. -/
def isCruiseFam : Phase → Bool
  | .CRUISE => true
  | .CRUISE_CORNER => true
  | .CRUISE_INTERMEDIATE => true
  | _ => false

/-- Recognizer of the per-leg phase pattern
`GROUND_* (VERTICAL_ASCENT CRUISE* VERTICAL_DESCENT GROUND_*)*`.
In ground mode (`true`) the list must be a single ground phase or a ground
phase followed by a vertical ascent; in cruise mode (`false`) cruise-family
phases are consumed until a vertical descent hands back to ground mode. -/
def phaseRun : Bool → List Phase → Bool
  | true, [p] => isGroundPhase p
  | true, p :: q :: rest =>
    isGroundPhase p && (q = Phase.VERTICAL_ASCENT) && phaseRun false rest
  | false, p :: rest =>
    if isCruiseFam p then phaseRun false rest
    else (p = Phase.VERTICAL_DESCENT) && phaseRun true rest
  | _, _ => false

theorem groundPhaseFor_ground (a b : Bool) :
    isGroundPhase (groundPhaseFor a b) = true := by
  cases a <;> cases b <;> rfl

theorem isGroundPhase_ne_ascent (p : Phase) (h : isGroundPhase p = true) :
    p ≠ Phase.VERTICAL_ASCENT := by
  cases p <;> simp_all [isGroundPhase]

theorem isCruiseFam_ne_ascent (p : Phase) (h : isCruiseFam p = true) :
    p ≠ Phase.VERTICAL_ASCENT := by
  cases p <;> simp_all [isCruiseFam]

/-- A phase list accepted by `phaseRun` never has two consecutive
vertical ascents, and in cruise mode never starts with one. -/
theorem phaseRun_chain :
    ∀ (n : Nat) (l : List Phase), l.length ≤ n → ∀ b, phaseRun b l = true →
      List.Chain' (fun a c => ¬(a = Phase.VERTICAL_ASCENT ∧ c = Phase.VERTICAL_ASCENT)) l ∧
      ∀ p ∈ l.head?, p ≠ Phase.VERTICAL_ASCENT := by
  intro n
  induction n with
  | zero =>
    intro l hl b h
    interval_cases hlen : l.length
    · obtain rfl : l = [] := List.length_eq_zero.1 hlen
      cases b <;> simp [phaseRun] at h
  | succ n IH =>
    intro l hl b h
    cases l with
    | nil => cases b <;> simp [phaseRun] at h
    | cons p rest =>
      cases b with
      | true =>
        cases rest with
        | nil =>
          have hp : isGroundPhase p = true := by simpa [phaseRun] using h
          exact ⟨List.chain'_singleton p, by
            intro x hx
            simp at hx
            subst hx
            exact isGroundPhase_ne_ascent p hp⟩
        | cons q rs =>
          have h3 : isGroundPhase p = true ∧ q = Phase.VERTICAL_ASCENT ∧
              phaseRun false rs = true := by
            have := h
            simp only [phaseRun, Bool.and_eq_true, decide_eq_true_eq] at this
            exact ⟨this.1.1, this.1.2, this.2⟩
          obtain ⟨hp, rfl, hrs⟩ := h3
          have hlen : rs.length ≤ n := by
            simp only [List.length_cons] at hl
            omega
          obtain ⟨hchain, hhead⟩ := IH rs hlen false hrs
          refine ⟨?_, ?_⟩
          · rw [List.chain'_cons']
            constructor
            · intro x hx
              exact fun hcon => isGroundPhase_ne_ascent p hp hcon.1
            · rw [List.chain'_cons']
              exact ⟨fun x hx hcon => hhead x hx hcon.2, hchain⟩
          · intro x hx
            simp at hx
            subst hx
            exact isGroundPhase_ne_ascent p hp
      | false =>
        have hlen : rest.length ≤ n := by
          simp only [List.length_cons] at hl
          omega
        by_cases hc : isCruiseFam p = true
        · have hrest : phaseRun false rest = true := by
            simpa [phaseRun, hc] using h
          obtain ⟨hchain, hhead⟩ := IH rest hlen false hrest
          refine ⟨?_, ?_⟩
          · rw [List.chain'_cons']
            exact ⟨fun x hx hcon => isCruiseFam_ne_ascent p hc hcon.1, hchain⟩
          · intro x hx
            simp at hx
            subst hx
            exact isCruiseFam_ne_ascent p hc
        · have hc' : isCruiseFam p = false := by simpa using hc
          have hdesc : p = Phase.VERTICAL_DESCENT ∧ phaseRun true rest = true := by
            have h2 := h
            simp [phaseRun, hc'] at h2
            exact h2
          obtain ⟨rfl, hrest⟩ := hdesc
          obtain ⟨hchain, hhead⟩ := IH rest hlen true hrest
          refine ⟨?_, ?_⟩
          · rw [List.chain'_cons']
            exact ⟨fun x hx hcon => Phase.noConfusion hcon.1, hchain⟩
          · intro x hx
            simp at hx
            subst hx
            intro hcon
            cases hcon

/-- One annotator walk step only ever appends cruise-family waypoints. -/
theorem cruiseStep_phases (C : Ctx) (M : Option ℚ) (a b : Nat)
    (s : CruiseSt) (node : Node)
    (hacc : ∀ w ∈ s.acc, isCruiseFam w.phase = true) :
    ∀ w ∈ (cruiseStep C M a b s node).acc, isCruiseFam w.phase = true := by
  intro w hw
  unfold cruiseStep at hw
  split at hw
  · dsimp only at hw
    split at hw
    · rcases hlb : s.lastBefore with _ | prev
      · rw [hlb] at hw
        dsimp only at hw
        rcases List.mem_append.1 hw with h1 | h1
        · exact hacc w h1
        · simp at h1
          subst h1
          rfl
      · rw [hlb] at hw
        dsimp only at hw
        rcases List.mem_append.1 hw with h1 | h1
        · rcases List.mem_append.1 h1 with h2 | h2
          · exact hacc w h2
          · simp at h2
            subst h2
            rfl
        · simp at h1
          subst h1
          rfl
    · rcases hln : s.lastOutputNode with _ | last
      · rw [hln] at hw
        exact hacc w hw
      · rw [hln] at hw
        dsimp only at hw
        split at hw
        · rcases List.mem_append.1 hw with h1 | h1
          · exact hacc w h1
          · simp at h1
            subst h1
            rfl
        · exact hacc w hw
  · exact hacc w hw

/-- Every waypoint of a leg walk is cruise-family. -/
theorem legCruise_phases (C : Ctx) (M : Option ℚ) (smoothed : List Node)
    (a b : Nat) : ∀ w ∈ legCruise C M smoothed a b, isCruiseFam w.phase = true := by
  unfold legCruise
  generalize hinit : (⟨C.centerLane, none, none, []⟩ : CruiseSt) = s0
  have hstart : ∀ w ∈ s0.acc, isCruiseFam w.phase = true := by
    subst hinit
    intro w hw
    cases hw
  clear hinit
  induction smoothed generalizing s0 with
  | nil => exact hstart
  | cons node rest ih =>
    exact ih (cruiseStep C M a b s0 node) (cruiseStep_phases C M a b s0 node hstart)

/-- Consuming a cruise-family prefix and the closing descent returns the
recognizer to ground mode. -/
theorem phaseRun_cruise_append :
    ∀ (cs : List Phase), (∀ c ∈ cs, isCruiseFam c = true) → ∀ (tail : List Phase),
      phaseRun false (cs ++ Phase.VERTICAL_DESCENT :: tail) = phaseRun true tail
  | [], _, tail => by simp [phaseRun, isCruiseFam]
  | c :: cs, hcs, tail => by
    have hc : isCruiseFam c = true := hcs c (by simp)
    have hrec := phaseRun_cruise_append cs (fun x hx => hcs x (by simp [hx])) tail
    simp only [List.cons_append, phaseRun, hc, if_true]
    exact hrec

/-- The annotator output of a nonempty stop list matches the leg
pattern. -/
theorem annotateLegs_pattern (C : Ctx) (M : Option ℚ) (smoothed : List Node) :
    ∀ (idxs : List Nat) (isFirst : Bool), idxs ≠ [] →
      phaseRun true ((annotateLegs C M smoothed isFirst idxs).map (fun w => w.phase)) = true
  | [], _, hne => absurd rfl hne
  | [x], isFirst, _ => by
    simp only [annotateLegs, List.map]
    simpa [phaseRun, groundWpAt] using groundPhaseFor_ground isFirst true
  | x :: y :: rest, isFirst, _ => by
    have hrec := annotateLegs_pattern C M smoothed (y :: rest) false (by simp)
    have hcs : ∀ c ∈ (legCruise C M smoothed x y).map (fun w => w.phase),
        isCruiseFam c = true := by
      intro c hc
      rcases List.mem_map.1 hc with ⟨w, hw, rfl⟩
      exact legCruise_phases C M smoothed x y w hw
    simp only [annotateLegs, List.map_cons, List.map_append]
    have hshape : phaseRun true
        ((groundWpAt C x isFirst false).phase :: (ascentWpAt C x M).phase ::
          ((legCruise C M smoothed x y).map (fun w => w.phase) ++
            (descentWpAt C y M).phase ::
              (annotateLegs C M smoothed false (y :: rest)).map (fun w => w.phase))) = true := by

      have hasc : (ascentWpAt C x M).phase = Phase.VERTICAL_ASCENT := rfl
      have hdesc : (descentWpAt C y M).phase = Phase.VERTICAL_DESCENT := rfl
      have hg : isGroundPhase (groundWpAt C x isFirst false).phase = true :=
        groundPhaseFor_ground isFirst false
      simp only [phaseRun, hasc, hdesc, hg, Bool.true_and, decide_eq_true_eq]
      rw [phaseRun_cruise_append _ hcs]
      simpa using hrec
    simpa using hshape

/-- C9.  On every successful planning call with a nonempty stop list, the
emitted waypoint phases follow, leg by leg, the pattern
`GROUND_* VERTICAL_ASCENT CRUISE* VERTICAL_DESCENT ... GROUND_*`
(recognized by `phaseRun` in ground mode); in particular no two
consecutive waypoints both have phase `VERTICAL_ASCENT`. -/
theorem claim_C9_phase_ordering (cfg : Config) (dist : GridPoint → GridPoint → ℚ)
    (grid : Grid) (r : RouteResult) (hr : optimizeFlightPath cfg dist grid = r)
    (hsucc : r.success = true)
    (hne : grid.waypointIndices.getD [0, (mkCtx cfg dist grid).numSteps - 1] ≠ []) :
    phaseRun true (r.waypoints.map (fun w => w.phase)) = true ∧
    List.Chain' (fun a c => ¬(a = Phase.VERTICAL_ASCENT ∧ c = Phase.VERTICAL_ASCENT))
      (r.waypoints.map (fun w => w.phase)) := by
  rcases hA : aStarSearch (mkCtx cfg dist grid) with ⟨o, st, v⟩
  simp only [optimizeFlightPath, hA] at hr
  cases o with
  | none =>
    subst hr
    simp [failureResult] at hsucc
  | some final =>
    subst hr
    have hrun := annotateLegs_pattern (mkCtx cfg dist grid)
      (maxCruiseAltOf (mkCtx cfg dist grid)) (smoothedOf (mkCtx cfg dist grid))
      (grid.waypointIndices.getD [0, (mkCtx cfg dist grid).numSteps - 1]) true hne
    refine ⟨hrun, ?_⟩
    exact (phaseRun_chain _ _ (le_refl _) true hrun).1

unseal Rat.add Rat.mul Rat.sub Rat.inv in
/-- Witness for C9: the phases of the flat-grid run are
`GROUND_START, VERTICAL_ASCENT, VERTICAL_DESCENT, GROUND_END`. -/
theorem claim_C9_witness :
    phaseRun true ((optimizeFlightPath defaultConfig zeroDist flatGrid).waypoints.map
      (fun w => w.phase)) = true ∧
    List.Chain' (fun a c => ¬(a = Phase.VERTICAL_ASCENT ∧ c = Phase.VERTICAL_ASCENT))
      ((optimizeFlightPath defaultConfig zeroDist flatGrid).waypoints.map
        (fun w => w.phase)) :=
  claim_C9_phase_ordering defaultConfig zeroDist flatGrid
    (optimizeFlightPath defaultConfig zeroDist flatGrid) rfl (by decide) (by decide)

/-! ### Claim C3: the cameFrom-chain invariant of the search -/

theorem mem_insertByF (n : Node) : ∀ (l : List Node) (a : Node),
    a ∈ insertByF n l ↔ a = n ∨ a ∈ l
  | [], a => by simp [insertByF]
  | m :: ms, a => by
    unfold insertByF
    split
    · simp [or_comm, or_assoc, or_left_comm]
    · rw [List.mem_cons, mem_insertByF n ms a, List.mem_cons]
      tauto

theorem mem_sortByF : ∀ (l : List Node) (a : Node), a ∈ sortByF l ↔ a ∈ l
  | [], a => Iff.rfl
  | n :: ns, a => by
    unfold sortByF
    rw [mem_insertByF, mem_sortByF ns a, List.mem_cons]

theorem lookup_cons_self {β : Type} (k : Nat × Nat) (v : β) (l : List ((Nat × Nat) × β)) :
    ((k, v) :: l).lookup k = some v := by
  simp [List.lookup]

theorem lookup_cons_ne {β : Type} (a k : Nat × Nat) (v : β) (l : List ((Nat × Nat) × β))
    (h : a ≠ k) : ((k, v) :: l).lookup a = l.lookup a := by
  have hbeq : (a == k) = false := by simpa using h
  simp [List.lookup, hbeq]

/-- The chain invariant: following `cameFrom` from `n` for `fuel` hops,
every stored predecessor is closed, sits exactly one step earlier, and has
an altitude absorbed by the altitude of its successor (the JS open-set
update sets `alt = Math.max(predecessor.alt, targetAlt)`). -/
def validFrom (closed : List (Nat × Nat)) (cf : List ((Nat × Nat) × Node)) :
    Nat → Node → Prop
  | 0, _ => True
  | fuel + 1, n =>
    ∀ p, cf.lookup (nodeId n) = some p →
      closed.contains (nodeId p) = true ∧ p.step + 1 = n.step ∧
      jsMax p.alt n.alt = n.alt ∧ validFrom closed cf fuel p

/-- Growing the closed set preserves the chain invariant. -/
theorem validFrom_mono (closed closed' : List (Nat × Nat))
    (hsub : ∀ id, closed.contains id = true → closed'.contains id = true)
    (cf : List ((Nat × Nat) × Node)) :
    ∀ (fuel : Nat) (n : Node), validFrom closed cf fuel n → validFrom closed' cf fuel n
  | 0, _, _ => trivial
  | fuel + 1, n, h => by
    intro p hp
    obtain ⟨h1, h2, h3, h4⟩ := h p hp
    exact ⟨hsub _ h1, h2, h3, validFrom_mono closed closed' hsub cf fuel p h4⟩

/-- Inserting a predecessor entry for a key that is neither closed nor the
head node preserves the chain invariant (the chain only traverses closed
ids below its head). -/
theorem validFrom_extend (closed : List (Nat × Nat)) (cf : List ((Nat × Nat) × Node))
    (k : Nat × Nat) (v : Node) (hk : closed.contains k = false) :
    ∀ (fuel : Nat) (n : Node), k ≠ nodeId n → validFrom closed cf fuel n →
      validFrom closed ((k, v) :: cf) fuel n
  | 0, _, _, _ => trivial
  | fuel + 1, n, hne, h => by
    intro p hp
    rw [lookup_cons_ne _ _ _ _ (fun he => hne he.symm)] at hp
    obtain ⟨h1, h2, h3, h4⟩ := h p hp
    have hkp : k ≠ nodeId p := by
      intro he
      rw [he] at hk
      rw [h1] at hk
      cases hk
    exact ⟨h1, h2, h3, validFrom_extend closed cf k v hk fuel p hkp h4⟩

/-- The open-set invariant carried through the A* loop. -/
def OpenInv (st : SState) : Prop :=
  ∀ n ∈ st.openSet, validFrom st.closedSet st.cameFrom (n.step + 1) n

/-- One edge relaxation keeps the closed set, the open-set invariant, and
the validity of the (already closed) current node. -/
theorem relaxEdge_inv (C : Ctx) (current : Node) (l : Nat) (st : SState)
    (hopen : OpenInv st)
    (hcur : validFrom st.closedSet st.cameFrom (current.step + 1) current)
    (hclosed : st.closedSet.contains (nodeId current) = true) :
    (relaxEdge C current l st).closedSet = st.closedSet ∧
    OpenInv (relaxEdge C current l st) ∧
    validFrom st.closedSet (relaxEdge C current l st).cameFrom (current.step + 1) current := by
  unfold relaxEdge
  dsimp only
  split
  · exact ⟨rfl, hopen, hcur⟩
  · split
    · exact ⟨rfl, hopen, hcur⟩
    · split
      case isFalse => exact ⟨rfl, hopen, hcur⟩
      case isTrue hnc _ hguard =>
        have hknc : st.closedSet.contains (current.step + 1, l) = false :=
          Bool.eq_false_iff.2 hnc
        have hkcur : ((current.step + 1, l) : Nat × Nat) ≠ nodeId current := by
          intro he
          have := congrArg Prod.fst he
          simp [nodeId] at this
        have hcur2 : validFrom st.closedSet
            (((current.step + 1, l), current) :: st.cameFrom) (current.step + 1) current :=
          validFrom_extend st.closedSet st.cameFrom _ current hknc
            (current.step + 1) current hkcur hcur
        refine ⟨rfl, ?_, hcur2⟩
        intro n hn
        dsimp only at hn ⊢
        have hnew : ∀ (m : Node), nodeId m = (current.step + 1, l) →
            m.alt = jsMax current.alt
              (minSafeAltAt C.cfg (gridPointAt C.grid l (current.step + 1))) →
            validFrom st.closedSet (((current.step + 1, l), current) :: st.cameFrom)
              (m.step + 1) m := by
          intro m hm halt
          have hstep : m.step = current.step + 1 := congrArg Prod.fst hm
          rw [hstep]
          intro p hp
          rw [hm, lookup_cons_self] at hp
          obtain rfl : current = p := by injection hp
          refine ⟨hclosed, ?_, ?_, hcur2⟩
          · exact hstep.symm
          · rw [halt]
            exact jsMax_absorb _ _
        split at hn
        · rcases List.mem_map.1 hn with ⟨n0, hn0, heq⟩
          by_cases hid : nodeId n0 = (current.step + 1, l)
          · rw [if_pos hid] at heq
            subst heq
            exact hnew _ rfl rfl
          · rw [if_neg hid] at heq
            subst heq
            exact validFrom_extend st.closedSet st.cameFrom _ current hknc
              (n0.step + 1) n0 (fun he => hid he.symm) (hopen n0 hn0)
        · rcases List.mem_append.1 hn with h1 | h1
          · exact validFrom_extend st.closedSet st.cameFrom _ current hknc
              (n.step + 1) n
              (by
                have hall := List.any_eq_false.1 (Bool.eq_false_iff.2 (by assumption)) n h1
                simp only [decide_eq_true_eq] at hall
                exact fun he => hall he.symm)
              (hopen n h1)
          · simp only [List.mem_singleton] at h1
            subst h1
            exact hnew _ rfl rfl

theorem contains_cons_of {x id : Nat × Nat} {cs : List (Nat × Nat)}
    (h : cs.contains id = true) : (x :: cs).contains id = true := by
  simp only [List.contains_cons, Bool.or_eq_true]
  exact Or.inr h

/-- The whole candidate-lane fold preserves the open-set invariant. -/
theorem foldl_relax_inv (C : Ctx) (current : Node) (cs : List (Nat × Nat))
    (hcs : cs.contains (nodeId current) = true) :
    ∀ (lanes : List Nat) (s : SState), s.closedSet = cs → OpenInv s →
      validFrom cs s.cameFrom (current.step + 1) current →
      (lanes.foldl (fun s l => relaxEdge C current l s) s).closedSet = cs ∧
      OpenInv (lanes.foldl (fun s l => relaxEdge C current l s) s)
  | [], s, hc, ho, _ => ⟨hc, ho⟩
  | l :: ls, s, hc, ho, hv => by
    subst hc
    obtain ⟨h1, h2, h3⟩ := relaxEdge_inv C current l s ho hv hcs
    exact foldl_relax_inv C current s.closedSet hcs ls (relaxEdge C current l s) h1 h2
      (h1 ▸ h3)

/-- Whenever the A* loop pops a goal node, that node satisfies the chain
invariant in the final state. -/
theorem aStarLoop_valid (C : Ctx) :
    ∀ (fuel : Nat) (st : SState) (visited : Nat), OpenInv st →
      ∀ (final : Node) (st2 : SState) (v2 : Nat),
        aStarLoop C fuel st visited = (some final, st2, v2) →
        validFrom st2.closedSet st2.cameFrom (final.step + 1) final
  | 0, st, visited, _, final, st2, v2, heq => by simp [aStarLoop] at heq
  | fuel + 1, st, visited, hopen, final, st2, v2, heq => by
    rcases hsort : sortByF st.openSet with _ | ⟨current, rest⟩
    · unfold aStarLoop at heq
      rw [hsort] at heq
      simp at heq
    · unfold aStarLoop at heq
      rw [hsort] at heq
      dsimp only at heq
      have hcur_mem : current ∈ st.openSet :=
        (mem_sortByF _ _).1 (hsort ▸ List.mem_cons_self current rest)
      have hrest_mem : ∀ n ∈ rest, n ∈ st.openSet := fun n hn =>
        (mem_sortByF _ _).1 (hsort ▸ List.mem_cons_of_mem _ hn)
      split at heq
      · obtain ⟨hf, hst, _⟩ : some current = some final ∧ st = st2 ∧ visited + 1 = v2 := by
          have h1 := congrArg Prod.fst heq
          have h2 := congrArg (fun x => x.2.1) heq
          have h3 := congrArg (fun x => x.2.2) heq
          exact ⟨h1, h2, h3⟩
        obtain rfl : current = final := by injection hf
        subst hst
        exact hopen current hcur_mem
      · split at heq
        · refine aStarLoop_valid C fuel _ _ ?_ final st2 v2 heq
          intro n hn
          exact validFrom_mono st.closedSet (nodeId current :: st.closedSet)
            (fun id h => contains_cons_of h) st.cameFrom _ n (hopen n (hrest_mem n hn))
        · have hselfc : (nodeId current :: st.closedSet).contains (nodeId current) = true := by
            simp [List.contains_cons]
          have hOA : OpenInv
              { openSet := rest
                closedSet := nodeId current :: st.closedSet
                gScore := st.gScore
                cameFrom := st.cameFrom } := by
            intro n hn
            exact validFrom_mono st.closedSet (nodeId current :: st.closedSet)
              (fun id h => contains_cons_of h) st.cameFrom _ n (hopen n (hrest_mem n hn))
          have hvA : validFrom (nodeId current :: st.closedSet) st.cameFrom
              (current.step + 1) current :=
            validFrom_mono st.closedSet (nodeId current :: st.closedSet)
              (fun id h => contains_cons_of h) st.cameFrom _ current
              (hopen current hcur_mem)
          obtain ⟨hc1, ho1⟩ := foldl_relax_inv C current (nodeId current :: st.closedSet)
            hselfc (candidateLanes C.numLanes current.lane)
            { openSet := rest
              closedSet := nodeId current :: st.closedSet
              gScore := st.gScore
              cameFrom := st.cameFrom }
            rfl hOA hvA
          exact aStarLoop_valid C fuel _ _ ho1 final st2 v2 heq

/-- Along a valid chain, every reconstructed node has its altitude
absorbed by the head altitude. -/
theorem validFrom_reconstruct (closed : List (Nat × Nat))
    (cf : List ((Nat × Nat) × Node)) :
    ∀ (fuel : Nat) (n : Node), validFrom closed cf fuel n →
      ∀ m ∈ reconstruct cf fuel n, jsMax m.alt n.alt = n.alt
  | 0, n, _ => by
    intro m hm
    simp only [reconstruct, List.mem_singleton] at hm
    subst hm
    exact jsMax_idem _
  | fuel + 1, n, h => by
    intro m hm
    unfold reconstruct at hm
    rcases hcf : cf.lookup (nodeId n) with _ | p
    · rw [hcf] at hm
      simp only [List.mem_singleton] at hm
      subst hm
      exact jsMax_idem _
    · rw [hcf] at hm
      obtain ⟨_, _, h3, h4⟩ := h p hcf
      rcases List.mem_cons.1 hm with rfl | hm2
      · exact jsMax_idem _
      · have hmp := validFrom_reconstruct closed cf fuel p h4 m hm2
        calc jsMax m.alt n.alt = jsMax m.alt (jsMax p.alt n.alt) := by rw [h3]
          _ = jsMax (jsMax m.alt p.alt) n.alt := (jsMax_assoc _ _ _).symm
          _ = jsMax p.alt n.alt := by rw [hmp]
          _ = n.alt := h3

/-- The reconstructed chain starts with its head node. -/
theorem reconstruct_cons (cf : List ((Nat × Nat) × Node)) :
    ∀ (fuel : Nat) (n : Node), ∃ t, reconstruct cf fuel n = n :: t
  | 0, n => ⟨[], rfl⟩
  | fuel + 1, n => by
    unfold reconstruct
    rcases cf.lookup (nodeId n) with _ | p
    · exact ⟨[], rfl⟩
    · exact ⟨_, rfl⟩

theorem foldl_jsMax_const (x : Option ℚ) :
    ∀ (l : List (Option ℚ)) (i : Option ℚ), (∀ a ∈ l, jsMax a x = x) →
      l.foldl jsMax (jsMax i x) = jsMax i x
  | [], _, _ => rfl
  | a :: t, i, h => by
    have ha : jsMax a x = x := h a (by simp)
    have hstep : jsMax (jsMax i x) a = jsMax i x := by
      rw [jsMax_assoc, jsMax_comm x a, ha]
    rw [List.foldl_cons, hstep]
    exact foldl_jsMax_const x t i (fun b hb => h b (by simp [hb]))

/-- Folding `Math.max` over a list with a dominating member yields the max
of the seed and that member. -/
theorem foldl_jsMax_absorb (x : Option ℚ) :
    ∀ (l : List (Option ℚ)) (i : Option ℚ), (∀ a ∈ l, jsMax a x = x) → x ∈ l →
      l.foldl jsMax i = jsMax i x
  | [], _, _, hx => by cases hx
  | a :: t, i, h, hx => by
    rw [List.foldl_cons]
    by_cases hxt : x ∈ t
    · rw [foldl_jsMax_absorb x t (jsMax i a) (fun b hb => h b (by simp [hb])) hxt]
      rw [jsMax_assoc]
      rw [h a (by simp)]
    · have hax : a = x := by
        rcases List.mem_cons.1 hx with h1 | h1
        · exact h1.symm
        · exact absurd h1 hxt
      subst hax
      exact foldl_jsMax_const a t i (fun b hb => h b (by simp [hb]))

/-- Past the exit condition the smoothing loop is empty. -/
theorem smoothLoop_at_end (cfg : Config) (grid : Grid) (p : List Node) :
    ∀ (fuel idx : Nat), ¬(idx < p.length - 1) → smoothLoop cfg grid p fuel idx = []
  | 0, _, _ => rfl
  | fuel + 1, idx, h => by simp [smoothLoop, h]

/-- The smoothing loop always ends with the final path node. -/
theorem smoothLoop_getLast (cfg : Config) (grid : Grid) (p : List Node) :
    ∀ (fuel idx : Nat), idx < p.length - 1 → p.length - 1 - idx ≤ fuel →
      (smoothLoop cfg grid p fuel idx).getLast? =
        some (p.getD (p.length - 1) dummyNode)
  | 0, idx, h1, h2 => by omega
  | fuel + 1, idx, h1, _ => by
    have hidx : idx + 1 < p.length := by omega
    obtain ⟨hlow, hhigh⟩ := furthestValid_bounds cfg grid p idx hidx
    have heq : smoothLoop cfg grid p (fuel + 1) idx =
        p.getD (furthestValid cfg grid p idx) dummyNode ::
          smoothLoop cfg grid p fuel (furthestValid cfg grid p idx) := by
      simp [smoothLoop, h1]
    rw [heq]
    by_cases hfv : furthestValid cfg grid p idx < p.length - 1
    · have htail := smoothLoop_getLast cfg grid p fuel
        (furthestValid cfg grid p idx) hfv (by omega)
      rcases htail_ne : smoothLoop cfg grid p fuel (furthestValid cfg grid p idx)
        with _ | ⟨t, ts⟩
      · rw [htail_ne] at htail
        simp at htail
      · rw [htail_ne] at htail
        rw [List.getLast?_cons_cons]
        exact htail
    · have hfv_eq : furthestValid cfg grid p idx = p.length - 1 := by omega
      rw [hfv_eq, smoothLoop_at_end cfg grid p fuel (p.length - 1) (by omega)]
      rfl

theorem getLast?_eq_getD (p : List Node) (hne : p ≠ []) :
    p.getLast? = some (p.getD (p.length - 1) dummyNode) := by
  have hpos : 0 < p.length := List.length_pos.2 hne
  have hlt : p.length - 1 < p.length := by omega
  rw [List.getD_eq_getElem p dummyNode hlt, List.getLast?_eq_getElem?,
    List.getElem?_eq_getElem hlt]

/-- Smoothing preserves the final node. -/
theorem smoothPath_getLast (cfg : Config) (p : List Node) (grid : Grid)
    (hne : p ≠ []) : (smoothPath cfg p grid).getLast? = p.getLast? := by
  by_cases h : p.length ≤ 2
  · simp [smoothPath, h]
  · have h0 : 0 < p.length - 1 := by omega
    have hloop := smoothLoop_getLast cfg grid p p.length 0 h0 (by omega)
    have hrw : smoothPath cfg p grid =
        p.getD 0 dummyNode :: smoothLoop cfg grid p p.length 0 := by
      simp [smoothPath, h]
    rw [hrw, getLast?_eq_getD p hne]
    rcases hl : smoothLoop cfg grid p p.length 0 with _ | ⟨t, ts⟩
    · rw [hl] at hloop
      simp at hloop
    · rw [hl] at hloop
      rw [List.getLast?_cons_cons]
      exact hloop

/-- The airborne phases of the claim: vertical ascent and descent plus the
cruise family emitted by the annotator. -/
def isAirPhase : Phase → Bool
  | .VERTICAL_ASCENT => true
  | .VERTICAL_DESCENT => true
  | .CRUISE => true
  | .CRUISE_CORNER => true
  | .CRUISE_INTERMEDIATE => true
  | _ => false

theorem isAirPhase_groundPhaseFor (a b : Bool) :
    isAirPhase (groundPhaseFor a b) = false := by
  cases a <;> cases b <;> rfl

/-- One annotator walk step only appends waypoints at the global cruise
altitude. -/
theorem cruiseStep_alts (C : Ctx) (M : Option ℚ) (a b : Nat)
    (s : CruiseSt) (node : Node) (hacc : ∀ w ∈ s.acc, w.alt = M) :
    ∀ w ∈ (cruiseStep C M a b s node).acc, w.alt = M := by
  intro w hw
  unfold cruiseStep at hw
  split at hw
  · dsimp only at hw
    split at hw
    · rcases hlb : s.lastBefore with _ | prev
      · rw [hlb] at hw
        dsimp only at hw
        rcases List.mem_append.1 hw with h1 | h1
        · exact hacc w h1
        · simp at h1
          subst h1
          rfl
      · rw [hlb] at hw
        dsimp only at hw
        rcases List.mem_append.1 hw with h1 | h1
        · rcases List.mem_append.1 h1 with h2 | h2
          · exact hacc w h2
          · simp at h2
            subst h2
            rfl
        · simp at h1
          subst h1
          rfl
    · rcases hln : s.lastOutputNode with _ | last
      · rw [hln] at hw
        exact hacc w hw
      · rw [hln] at hw
        dsimp only at hw
        split at hw
        · rcases List.mem_append.1 hw with h1 | h1
          · exact hacc w h1
          · simp at h1
            subst h1
            rfl
        · exact hacc w hw
  · exact hacc w hw

/-- Every cruise waypoint of a leg sits at the global cruise altitude. -/
theorem legCruise_alts (C : Ctx) (M : Option ℚ) (smoothed : List Node)
    (a b : Nat) : ∀ w ∈ legCruise C M smoothed a b, w.alt = M := by
  unfold legCruise
  generalize hinit : (⟨C.centerLane, none, none, []⟩ : CruiseSt) = s0
  have hstart : ∀ w ∈ s0.acc, w.alt = M := by
    subst hinit
    intro w hw
    cases hw
  clear hinit
  induction smoothed generalizing s0 with
  | nil => exact hstart
  | cons node rest ih =>
    exact ih (cruiseStep C M a b s0 node) (cruiseStep_alts C M a b s0 node hstart)

/-- Every airborne waypoint of the annotator output carries the single
global cruise altitude `M`, which is computed once before annotation. -/
theorem annotateLegs_alts (C : Ctx) (M : Option ℚ) (smoothed : List Node) :
    ∀ (idxs : List Nat) (isFirst : Bool) (w : Waypoint),
      w ∈ annotateLegs C M smoothed isFirst idxs → isAirPhase w.phase = true →
      w.alt = M
  | [], _, w, hw, _ => by cases hw
  | [x], isFirst, w, hw, hair => by
    simp only [annotateLegs, List.mem_singleton] at hw
    subst hw
    rw [show (groundWpAt C x isFirst true).phase = groundPhaseFor isFirst true from rfl,
      isAirPhase_groundPhaseFor] at hair
    cases hair
  | x :: y :: rest, isFirst, w, hw, hair => by
    simp only [annotateLegs, List.mem_cons, List.mem_append] at hw
    rcases hw with rfl | hw
    · rw [show (groundWpAt C x isFirst false).phase = groundPhaseFor isFirst false from rfl,
        isAirPhase_groundPhaseFor] at hair
      cases hair
    · rcases hw with rfl | hw
      · rfl
      · rcases hw with hw | hw
        · exact legCruise_alts C M smoothed x y w hw
        · rcases hw with rfl | hw2
          · rfl
          · exact annotateLegs_alts C M smoothed (y :: rest) false w hw2 hair

/-- C3 (amended).  On every successful planning call, every airborne
waypoint (vertical ascent, the cruise family, and vertical descent)
carries one and the same altitude `maxCruiseAltOf`, computed once before
annotation begins; and that value equals the fold of `Math.max` seeded
with 0 over the altitudes of the smoothed path — that is, the maximum of 0
and the global maximum alt over the smoothed path (the code folds over the
raw path, but the carried altitudes are monotone along the reconstructed
chain, so the raw and smoothed maxima agree). -/
theorem claim_C3_global_cruise_alt (cfg : Config) (dist : GridPoint → GridPoint → ℚ)
    (grid : Grid) (r : RouteResult) (hr : optimizeFlightPath cfg dist grid = r)
    (hsucc : r.success = true) :
    (∀ w ∈ r.waypoints, isAirPhase w.phase = true →
      w.alt = maxCruiseAltOf (mkCtx cfg dist grid)) ∧
    maxCruiseAltOf (mkCtx cfg dist grid) =
      (smoothedOf (mkCtx cfg dist grid)).foldl (fun acc n => jsMax acc n.alt) (some 0) := by
  rcases hA : aStarSearch (mkCtx cfg dist grid) with ⟨o, st, v⟩
  simp only [optimizeFlightPath, hA] at hr
  cases o with
  | none =>
    subst hr
    simp [failureResult] at hsucc
  | some final =>
    subst hr
    constructor
    · intro w hw hair
      exact annotateLegs_alts (mkCtx cfg dist grid) (maxCruiseAltOf (mkCtx cfg dist grid))
        (smoothedOf (mkCtx cfg dist grid)) _ true w hw hair
    · -- the chain invariant of the search gives the absorption property
      have hopen0 : OpenInv
          { openSet := [startNodeOf (mkCtx cfg dist grid)]
            closedSet := []
            gScore := [((0, (mkCtx cfg dist grid).centerLane), 0)]
            cameFrom := [] } := by
        intro n hn
        simp only [List.mem_singleton] at hn
        subst hn
        intro p hp
        simp [List.lookup] at hp
      have hvalid : validFrom st.closedSet st.cameFrom (final.step + 1) final := by
        refine aStarLoop_valid (mkCtx cfg dist grid)
          ((mkCtx cfg dist grid).numLanes * (mkCtx cfg dist grid).numSteps + 1)
          { openSet := [startNodeOf (mkCtx cfg dist grid)]
            closedSet := []
            gScore := [((0, (mkCtx cfg dist grid).centerLane), 0)]
            cameFrom := [] } 0 hopen0 final st v ?_
        rw [← hA]
        rfl
      have habs := validFrom_reconstruct st.closedSet st.cameFrom
        (final.step + 1) final hvalid
      obtain ⟨tail, htail⟩ := reconstruct_cons st.cameFrom (final.step + 1) final
      have hraw : rawPathOf (mkCtx cfg dist grid) =
          (reconstruct st.cameFrom (final.step + 1) final).reverse := by
        unfold rawPathOf
        rw [hA]
      have hmem_raw : ∀ m ∈ rawPathOf (mkCtx cfg dist grid),
          jsMax m.alt final.alt = final.alt := by
        intro m hm
        rw [hraw, List.mem_reverse] at hm
        exact habs m hm
      have hfin_raw : final ∈ rawPathOf (mkCtx cfg dist grid) := by
        rw [hraw, List.mem_reverse, htail]
        exact List.mem_cons_self _ _
      have hraw_ne : rawPathOf (mkCtx cfg dist grid) ≠ [] := by
        intro hnil
        rw [hnil] at hfin_raw
        cases hfin_raw
      -- the raw fold
      have hfold_raw : maxCruiseAltOf (mkCtx cfg dist grid) = jsMax (some 0) final.alt := by
        unfold maxCruiseAltOf
        rw [← List.foldl_map (f := Node.alt) (g := jsMax)]
        refine foldl_jsMax_absorb final.alt _ (some 0) ?_ ?_
        · intro a ha
          rcases List.mem_map.1 ha with ⟨m, hm, rfl⟩
          exact hmem_raw m hm
        · exact List.mem_map_of_mem Node.alt hfin_raw
      -- the smoothed fold
      have hsub := smoothPath_sublist cfg (rawPathOf (mkCtx cfg dist grid)) grid
      have hsm : smoothedOf (mkCtx cfg dist grid) =
          smoothPath cfg (rawPathOf (mkCtx cfg dist grid)) grid := rfl
      have hfin_sm : final ∈ smoothedOf (mkCtx cfg dist grid) := by
        have hL : (smoothedOf (mkCtx cfg dist grid)).getLast? = some final := by
          rw [hsm, smoothPath_getLast cfg _ grid hraw_ne, hraw, List.getLast?_reverse,
            htail]
          rfl
        exact List.mem_of_getLast?_eq_some hL
      have hfold_sm : (smoothedOf (mkCtx cfg dist grid)).foldl
          (fun acc n => jsMax acc n.alt) (some 0) = jsMax (some 0) final.alt := by
        rw [← List.foldl_map (f := Node.alt) (g := jsMax)]
        refine foldl_jsMax_absorb final.alt _ (some 0) ?_ ?_
        · intro a ha
          rcases List.mem_map.1 ha with ⟨m, hm, rfl⟩
          have hm_raw : m ∈ rawPathOf (mkCtx cfg dist grid) := hsub.subset (hsm ▸ hm)
          exact hmem_raw m hm_raw
        · exact List.mem_map_of_mem Node.alt hfin_sm
      rw [hfold_raw, hfold_sm]

/-- The grid of the C3 counterexample: one lane, two steps, terrain and
obstacle both at -100 m (all carried altitudes stay negative). -/
def c3Grid : Grid := ⟨[[gp (-100) (some (-100)), gp (-100) (some (-100))]], none⟩

unseal Rat.add Rat.mul Rat.sub Rat.inv in
/-- C3 counterexample.  On `c3Grid` the search succeeds with smoothed-path
altitudes -100 and -85, whose maximum is -85; but `maxCruiseAlt` is seeded
with 0 (`let maxCruiseAlt = 0`), so every cruise waypoint carries altitude
0, which is NOT the global maximum of the `alt` field over the nodes of
the smoothed path (it is not even attained by any node). -/
theorem claim_C3_counterexample :
    ((optimizeFlightPath defaultConfig zeroDist c3Grid).waypoints.map
      (fun w => (w.phase, w.alt))) =
      [(Phase.GROUND_START, some (-100)), (Phase.VERTICAL_ASCENT, some 0),
       (Phase.VERTICAL_DESCENT, some 0), (Phase.GROUND_END, some (-100))] ∧
    (smoothedOf (mkCtx defaultConfig zeroDist c3Grid)).map Node.alt =
      [some (-100), some (-85)] ∧
    some (0 : ℚ) ∉ (smoothedOf (mkCtx defaultConfig zeroDist c3Grid)).map Node.alt := by
  refine ⟨by decide, by decide, by decide⟩

unseal Rat.add Rat.mul Rat.sub Rat.inv in
/-- Witness for C3 (amended) on the flat grid: all airborne waypoints sit
at the 0-clamped smoothed-path maximum altitude. -/
theorem claim_C3_witness :
    (∀ w ∈ (optimizeFlightPath defaultConfig zeroDist flatGrid).waypoints,
      isAirPhase w.phase = true →
      w.alt = maxCruiseAltOf (mkCtx defaultConfig zeroDist flatGrid)) ∧
    maxCruiseAltOf (mkCtx defaultConfig zeroDist flatGrid) =
      (smoothedOf (mkCtx defaultConfig zeroDist flatGrid)).foldl
        (fun acc n => jsMax acc n.alt) (some 0) :=
  claim_C3_global_cruise_alt defaultConfig zeroDist flatGrid
    (optimizeFlightPath defaultConfig zeroDist flatGrid) rfl (by decide)

end RouteEngine
